import Mathlib

/-!
# kbr-bin : pad.c, padleft.c, padright.c and exitcode/main.c, a shallow embedding

C strings are lists of characters; where the terminating null character matters
(the object `args.string` points to, handed to `fputs`) the list is the whole
object, terminator included.  `stdout` is the list of characters written so far;
what goes to `stderr` is left out.  `exit` and undefined behaviour are explicit
results.  The functions of libc that the programs call (`getopt`, `strtol`,
`isspace`, `malloc`, `realloc`, `fputs`) are modelled after POSIX and ISO C; standard
input and the allocator are parameters of a run (`Env`).  `long` and `size_t` have 64
bits, `int` has 32.
-/

namespace Pad

/-- The null character that ends a C string. -/
def NUL : Char := Char.ofNat 0

def EXIT_SUCCESS : Nat := 0
def EXIT_STATUS_ERR : Nat := 1
def EXIT_STATUS_ARG : Nat := 2
def EXIT_STATUS_MALLOC : Nat := 64

/-- Largest value of a `long` (LP64). -/
def LONG_MAX : Nat := 2 ^ 63 - 1

/-- Number of values of a `size_t` (LP64): arithmetic on `size_t` is modulo this. -/
def SIZE_MODULUS : Nat := 2 ^ 64

def OPTIONS : List Char := ['c', 'h', 'l', 'p', ':', 'r']

/-- What `print_usage` writes. -/
def usage_text : List Char := "usage: pad [OPTION]... WIDTH [STRING]\n".toList

/-- What `print_help` writes: the usage line, then the help text. -/
def help_text : List Char :=
  usage_text ++
  ("Pad STRING to WIDTH with spaces and write it to stdout, with no trailing " ++
   "newline.\n" ++
   "\n" ++
   "Arguments:\n" ++
   "  WIDTH\tThe width of the padded string (non-negative integer).  If less than " ++
   "or equal to the width of STRING, STRING is output unchanged.\n" ++
   "  STRING\tThe string to be padded.  If not given, everything read from stdin " ++
   "is used.\n" ++
   "\n" ++
   "Options:\n" ++
   "  -c\tCenter align: pad on both sides.  If an odd number of padding characters " ++
   "are needed, use 1 more on the left than on the right.\n" ++
   "  -h\tPrint this help message and exit.\n" ++
   "  -l\tLeft pad: pad on the left.  This is the default.\n" ++
   "  -p CHAR\tUse CHAR (a single character) as padding instead of space.\n" ++
   "  -r\tRight pad: pad on the right.\n" ++
   "\n" ++
   "Options -c, -l and -r are mutually exclusive.\n").toList

inductive pad_type where
  | PAD_TYPE_CENTER
  | PAD_TYPE_LEFT
  | PAD_TYPE_RIGHT
  deriving DecidableEq, Repr

def ARGS_PAD_TYPE_DEFAULT : pad_type := pad_type.PAD_TYPE_LEFT
def ARGS_PAD_CHAR_DEFAULT : Char := ' '

/-- The `struct args`.  `string` is the whole object the pointer refers to: for a
command-line argument the characters and the terminating `NUL`, for the stdin buffer
the `string_size` allocated bytes. -/
structure args where
  width : Nat
  string : List Char
  string_len : Nat
  string_dynamic : Bool
  pad_type : pad_type
  pad_char : Char
  deriving DecidableEq, Repr

/-- Result of running a piece of the program that may call `exit`. -/
inductive Run (α : Type) where
  /-- control continues with a value -/
  | ok (a : α)
  /-- `exit status` was called; `out` is what stdout had received -/
  | exit (status : Nat) (out : List Char)
  /-- an access outside an object: the behaviour is undefined -/
  | undefined
  /-- the fuel of a loop of the model ran out (never a behaviour of the program) -/
  | unfinished
  deriving DecidableEq, Repr

/-- How a run of `main` ends. -/
inductive Outcome where
  /-- the process ended with `status`, having written `out` to stdout -/
  | terminated (status : Nat) (out : List Char)
  | undefined
  | unfinished
  deriving DecidableEq, Repr

/-- The outside world of one run: standard input and the allocator. -/
structure Env where
  /-- the bytes `getc(stdin)` returns before `EOF` -/
  stdin : List Char
  /-- whether `malloc` of a given size returns a non-null pointer -/
  malloc_ok : Nat → Bool
  /-- whether `realloc` to a given size returns a non-null pointer -/
  realloc_ok : Nat → Bool
  /-- the indeterminate byte found at a given offset of newly allocated memory -/
  fresh : Nat → Char

/-! ## libc -/

/-- `fputs(s, stdout)`: the characters before the first `NUL` of the object `s`;
`none` when the object holds no `NUL`, so that the read runs past its end. -/
def fputs : List Char → Option (List Char)
  | [] => none
  | c :: cs => if c = NUL then some [] else (fputs cs).map (fun t => c :: t)

/-- `strlen(s)` on an object holding a `NUL`. -/
def strlen : List Char → Nat
  | [] => 0
  | c :: cs => if c = NUL then 0 else strlen cs + 1

/-- `for (size_t i = 0; i < n; i++) putc(c, stdout);` : what is written. -/
def putc_loop (c : Char) : Nat → List Char
  | 0 => []
  | n + 1 => c :: putc_loop c n

/-- `isspace` in the C locale. -/
def isspace (c : Char) : Bool :=
  c = ' ' || c = '\t' || c = '\n' || c = Char.ofNat 11 || c = Char.ofNat 12 || c = '\r'

/-- Value of a character as a digit of `strtol`: `0-9`, then letters of either case
from 10 on. -/
def digit_value (c : Char) : Option Nat :=
  if '0' ≤ c ∧ c ≤ '9' then some (c.toNat - '0'.toNat)
  else if 'a' ≤ c ∧ c ≤ 'z' then some (c.toNat - 'a'.toNat + 10)
  else if 'A' ≤ c ∧ c ≤ 'Z' then some (c.toNat - 'A'.toNat + 10)
  else none

/-- Whether `c` is a digit in `base`. -/
def is_digit (base : Nat) (c : Char) : Bool :=
  match digit_value c with
  | some d => decide (d < base)
  | none => false

/-- The digit loop of `strtol`: consumes digits of `base` from the front of the
string, accumulating the magnitude (unbounded); returns it with the unread rest. -/
def strtol_digits (base : Nat) : List Char → Nat → Nat × List Char
  | [], acc => (acc, [])
  | c :: cs, acc =>
    match digit_value c with
    | some d => if d < base then strtol_digits base cs (acc * base + d) else (acc, c :: cs)
    | none => (acc, c :: cs)

/-- What `strtol` hands back: the `long`, the string at `*endptr`, and whether it set
`errno` to `ERANGE`. -/
structure strtol_result where
  value : Int
  endp : List Char
  erange : Bool
  deriving DecidableEq, Repr

/-- Clamp a sign and magnitude into the range of `long`. -/
def strtol_clamp (neg : Bool) (mag : Nat) (endp : List Char) : strtol_result :=
  if neg then
    if mag ≤ LONG_MAX + 1 then ⟨-(mag : Int), endp, false⟩ else ⟨-((LONG_MAX : Int) + 1), endp, true⟩
  else
    if mag ≤ LONG_MAX then ⟨(mag : Int), endp, false⟩ else ⟨(LONG_MAX : Int), endp, true⟩

/-- Whether `strtol` reads a `0x` or `0X` prefix at the front of `s`: the base allows
it and a hexadecimal digit follows. -/
def strtol_reads_0x (base : Nat) (s : List Char) : Bool :=
  match s with
  | c :: x :: d :: _ =>
    decide (c = '0' ∧ (x = 'x' ∨ x = 'X') ∧ (base = 0 ∨ base = 16)) && is_digit 16 d
  | _ => false

/-- The part of `strtol` after white space and sign: the `0x` prefix, the base that
base 0 stands for (8 after a leading `0`, else 10), then the digits.  `none` when
there is no digit at all. -/
def strtol_body (base : Nat) (s : List Char) : Option (Nat × List Char) :=
  if strtol_reads_0x base s then some (strtol_digits 16 (s.drop 2) 0)
  else
    let b := if base = 0 then (if s.head? = some '0' then 8 else 10) else base
    match s with
    | c :: _ => if is_digit b c then some (strtol_digits b s 0) else none
    | [] => none

/-- `strtol(nptr, &end, base)` in the C locale (C99 to C17): skip white space, take an
optional sign, convert the longest digit sequence; when nothing can be converted the
value is 0 and `*end` is `nptr`. -/
def strtol (nptr : List Char) (base : Nat) : strtol_result :=
  let s := nptr.dropWhile isspace
  let neg := s.head? = some '-'
  let t := if s.head? = some '-' ∨ s.head? = some '+' then s.tail else s
  match strtol_body base t with
  | none => ⟨0, nptr, false⟩
  | some (mag, endp) => strtol_clamp neg mag endp

/-- The state `getopt` keeps between calls: the option characters of the current
element still to be read (`nextchar`), and the elements from `argv[optind]` on (the
one being read excluded). -/
structure getopt_state where
  nextchar : List Char
  rest : List (List Char)
  deriving DecidableEq, Repr

/-- What a call of `getopt` returns. -/
inductive getopt_result where
  /-- `-1`: no more options; `operands` is `argv[optind .. argc)` -/
  | done (operands : List (List Char))
  /-- an option character of `optstring`, with `optarg` when it takes an argument -/
  | opt (c : Char) (optarg : List Char) (st : getopt_state)
  /-- `'?'`: unknown option character, or missing option argument -/
  | err (st : getopt_state)
  deriving DecidableEq, Repr

/-- Look `c` up in `optstring`: `none` when it is no option character, else whether
it takes an argument (is followed by a colon). -/
def getopt_lookup : List Char → Char → Option Bool
  | [], _ => none
  | o :: os, c =>
    if o = c ∧ c ≠ ':' then some (os.head? = some ':') else getopt_lookup os c

/-- One option character `c` of an element whose remaining characters are `cs`. -/
def getopt_char (optstring : List Char) (c : Char) (cs : List Char)
    (rest : List (List Char)) : getopt_result :=
  match getopt_lookup optstring c with
  | none => .err ⟨cs, rest⟩
  | some false => .opt c [] ⟨cs, rest⟩
  | some true =>
    match cs with
    | _ :: _ => .opt c cs ⟨[], rest⟩
    | [] =>
      match rest with
      | [] => .err ⟨[], []⟩
      | a :: rest' => .opt c a ⟨[], rest'⟩

/-- POSIX `getopt(argc, argv, optstring)` (no permutation of `argv`, which is what
`_POSIX_C_SOURCE 2` selects): an element that does not start with `-`, or is `-`
alone, ends the options; so does `--`, which is skipped. -/
def getopt (optstring : List Char) (st : getopt_state) : getopt_result :=
  match st.nextchar with
  | c :: cs => getopt_char optstring c cs st.rest
  | [] =>
    match st.rest with
    | [] => .done []
    | a :: rest =>
      match a with
      | '-' :: c :: cs =>
        if c = '-' ∧ cs = [] then .done rest else getopt_char optstring c cs rest
      | _ => .done (a :: rest)

/-- Termination measure of the option loop: characters and elements not yet read. -/
def getopt_state.size (st : getopt_state) : Nat :=
  st.nextchar.length + (st.rest.map (fun a => a.length + 1)).sum

/-! ## args_parse -/

/-- The variables the option loop of `args_parse` assigns. -/
structure parse_state where
  pad_type : pad_type
  pad_type_set : Bool
  pad_char : Char
  deriving DecidableEq, Repr

/-- The `switch (c)` of the option loop, for an option `c` that `getopt` returned. -/
def args_parse_switch (c : Char) (optarg : List Char) (ps : parse_state) :
    Run parse_state :=
  if c = 'c' then
    if ps.pad_type_set then .exit EXIT_STATUS_ARG []
    else .ok { ps with pad_type := pad_type.PAD_TYPE_CENTER, pad_type_set := true }
  else if c = 'h' then .exit EXIT_SUCCESS help_text
  else if c = 'l' then
    if ps.pad_type_set then .exit EXIT_STATUS_ARG []
    else .ok { ps with pad_type := pad_type.PAD_TYPE_LEFT, pad_type_set := true }
  else if c = 'p' then
    match optarg with
    | [ch] => .ok { ps with pad_char := ch }
    | _ => .exit EXIT_STATUS_ARG []
  else if c = 'r' then
    if ps.pad_type_set then .exit EXIT_STATUS_ARG []
    else .ok { ps with pad_type := pad_type.PAD_TYPE_RIGHT, pad_type_set := true }
  else .ok ps

/-- The loop `while ((c = getopt(argc, argv, OPTIONS)) != -1) switch (c) ...`, with
fuel; gives the variables and the operands `argv[optind .. argc)`. -/
def args_parse_options : Nat → getopt_state → parse_state →
    Run (parse_state × List (List Char))
  | 0, _, _ => .unfinished
  | fuel + 1, st, ps =>
    match getopt OPTIONS st with
    | .done operands => .ok (ps, operands)
    | .err _ => .exit EXIT_STATUS_ERR []
    | .opt c optarg st' =>
      match args_parse_switch c optarg ps with
      | .ok ps' => args_parse_options fuel st' ps'
      | .exit status out => .exit status out
      | .undefined => .undefined
      | .unfinished => .unfinished

/-- The check and conversion of `WIDTH` in `case 1:` of `args_parse`: `none` stands
for the call of `args_error_width`.  `errno` is 0 at program start and nothing before
this point sets it to `ERANGE`, so `errno == ERANGE` is the flag of `strtol`. -/
def args_parse_width (arg : List Char) : Option Nat :=
  match arg with
  | [] => none
  | c :: _ =>
    if isspace c then none
    else
      let r := strtol arg 0
      if r.erange ∨ r.endp ≠ [] ∨ r.value < 0 then none else some r.value.toNat

/-- The buffer of the stdin loop: the allocated object, its size, the write index. -/
structure drain_state where
  string : List Char
  string_size : Nat
  i : Nat
  deriving DecidableEq, Repr

/-- The object returned by `malloc(n)`: `n` indeterminate bytes. -/
def malloc (env : Env) (n : Nat) : Option (List Char) :=
  if env.malloc_ok n then some ((List.range n).map env.fresh) else none

/-- The object returned by `realloc(p, n)`: the old contents up to `n`, then
indeterminate bytes. -/
def realloc (env : Env) (old : List Char) (n : Nat) : Option (List Char) :=
  if env.realloc_ok n then
    some (old.take n ++ ((List.range (n - old.length)).map env.fresh))
  else none

/-- One pass of the body of `for (i = 0; (c = getc(stdin)) != EOF; i++)`, for the
byte `c` just read, followed by the `i++`. -/
def drain_step (env : Env) (st : drain_state) (c : Char) : Run drain_state :=
  let grown : Option drain_state :=
    if st.i ≥ st.string_size then
      (realloc env st.string (st.string_size * 2 % SIZE_MODULUS)).map
        (fun s => { st with string := s, string_size := st.string_size * 2 % SIZE_MODULUS })
    else some st
  match grown with
  | none => .exit EXIT_STATUS_MALLOC []
  | some st' =>
    if st'.i < st'.string.length then
      .ok { st' with string := st'.string.set st'.i c, i := st'.i + 1 }
    else .undefined

/-- The stdin loop over the bytes still to come. -/
def drain_loop (env : Env) : List Char → drain_state → Run drain_state
  | [], st => .ok st
  | c :: cs, st =>
    match drain_step env st c with
    | .ok st' => drain_loop env cs st'
    | .exit status out => .exit status out
    | .undefined => .undefined
    | .unfinished => .unfinished

/-- The block `if (args->string == NULL) ...` of `args_parse`: allocate, drain stdin. -/
def args_parse_stdin (env : Env) (width : Nat) (ps : parse_state) : Run args :=
  let string_size := if width < 1024 then width else 1024
  match malloc env string_size with
  | none => .exit EXIT_STATUS_MALLOC []
  | some buf =>
    match drain_loop env env.stdin ⟨buf, string_size, 0⟩ with
    | .ok st =>
      .ok { width := width, string := st.string, string_len := st.i,
            string_dynamic := true, pad_type := ps.pad_type, pad_char := ps.pad_char }
    | .exit status out => .exit status out
    | .undefined => .undefined
    | .unfinished => .unfinished

/-- The part of `args_parse` after the option loop: `switch (argc - optind)` and the
stdin block. -/
def args_parse_operands (env : Env) (ps : parse_state) (operands : List (List Char)) :
    Run args :=
  match operands with
  | [w, s] =>
    match args_parse_width w with
    | none => .exit EXIT_STATUS_ARG []
    | some width =>
      .ok { width := width, string := s ++ [NUL], string_len := strlen (s ++ [NUL]),
            string_dynamic := false, pad_type := ps.pad_type, pad_char := ps.pad_char }
  | [w] =>
    match args_parse_width w with
    | none => .exit EXIT_STATUS_ARG []
    | some width => args_parse_stdin env width ps
  | _ => .exit EXIT_STATUS_ARG []

/-- The variables of `args_parse` before the first option. -/
def parse_state_default : parse_state :=
  ⟨ARGS_PAD_TYPE_DEFAULT, false, ARGS_PAD_CHAR_DEFAULT⟩

/-- The function `args_parse`: `argv` includes `argv[0]`. -/
def args_parse (argv : List (List Char)) (env : Env) : Run args :=
  let st : getopt_state := ⟨[], argv.tail⟩
  match args_parse_options (st.size + 1) st parse_state_default with
  | .ok (ps, operands) => args_parse_operands env ps operands
  | .exit status out => .exit status out
  | .undefined => .undefined
  | .unfinished => .unfinished

/-! ## main -/

/-- The statements of `main` after `args_parse`, up to `cleanup`: what they write to
stdout, `none` when `fputs` runs past the end of `args.string`. -/
def main_pad (a : args) : Option (List Char) :=
  if a.width ≤ a.string_len then fputs a.string
  else
    let padding := a.width - a.string_len
    match a.pad_type with
    | pad_type.PAD_TYPE_LEFT =>
      (fputs a.string).map (fun s => putc_loop a.pad_char padding ++ s)
    | pad_type.PAD_TYPE_RIGHT =>
      (fputs a.string).map (fun s => s ++ putc_loop a.pad_char padding)
    | pad_type.PAD_TYPE_CENTER =>
      let right := padding / 2
      let left := padding - right
      (fputs a.string).map
        (fun s => putc_loop a.pad_char left ++ s ++ putc_loop a.pad_char right)

/-- The function `main`. -/
def main (argv : List (List Char)) (env : Env) : Outcome :=
  match args_parse argv env with
  | .ok a =>
    match main_pad a with
    | some out => .terminated EXIT_SUCCESS out
    | none => .undefined
  | .exit status out => .terminated status out
  | .undefined => .undefined
  | .unfinished => .unfinished

/-! ## The width the specification asks for -/

/-- Written from the words of the specification ("base 10, or a base detected from
its prefix such as 0x"), not from the code: the base a numeral announces, and its
digits. -/
def numeral_base (body : List Char) : Nat × List Char :=
  match body with
  | c :: x :: ds =>
    if c = '0' ∧ (x = 'x' ∨ x = 'X') then (16, ds)
    else if c = '0' then (8, c :: x :: ds)
    else (10, c :: x :: ds)
  | [c] => if c = '0' then (8, [c]) else (10, [c])
  | [] => (10, [])

/-- Written from the words of the specification: the number a digit string denotes in
`base`, most significant digit first. -/
def numeral_value (base : Nat) (ds : List Char) : Nat :=
  Nat.ofDigits base (ds.reverse.map (fun c => (digit_value c).getD 0))

/-- Written from the words of the specification: `WIDTH` "must parse as a base-10 (or
prefix-detected base, e.g. 0x) non-negative integer with no trailing garbage and
without numeric overflow".  An optional sign, then a numeral all of whose characters
are digits of its base; the integer it denotes is not negative (so a minus sign goes
with zero only) and fits a `long`.  `none` when `w` is no such text. -/
def width_literal (w : List Char) : Option Nat :=
  let body := if w.head? = some '+' ∨ w.head? = some '-' then w.tail else w
  let ds := (numeral_base body).2
  let v := numeral_value (numeral_base body).1 ds
  if ds ≠ [] ∧ ds.all (is_digit (numeral_base body).1) ∧ v ≤ LONG_MAX ∧
      (w.head? = some '-' → v = 0) then some v
  else none

/-- The arguments `pre` are options that the option loop accepts, one after the other
and to the last character, leaving the variables `ps`: none of them ends the options
(`--`), prints the help or is rejected. -/
def options_accepted (pre : List (List Char)) (ps : parse_state) : Prop :=
  ['-', '-'] ∉ pre ∧
    args_parse_options ((getopt_state.mk [] pre).size + 1) ⟨[], pre⟩ parse_state_default
      = .ok (ps, [])

instance (pre : List (List Char)) (ps : parse_state) : Decidable (options_accepted pre ps) := by
  unfold options_accepted
  infer_instance

/-- An allocator that never fails and hands out memory filled with `c`. -/
def env_of (stdin : List Char) (c : Char) : Env :=
  ⟨stdin, fun _ => true, fun _ => true, fun _ => c⟩


/-- Number of calls of `realloc` the stdin loop makes while it reads `input` from the
state `st`: one for each pass that finds `i >= string_size`. -/
def drain_reallocs (env : Env) : List Char → drain_state → Nat
  | [], _ => 0
  | c :: cs, st =>
    (if st.i ≥ st.string_size then 1 else 0) +
      match drain_step env st c with
      | .ok st' => drain_reallocs env cs st'
      | _ => 0

/-! ## padleft.c and padright.c -/

/-- Largest value of an `int` (32 bits). -/
def INT_MAX : Nat := 2 ^ 31 - 1

/-- Conversion of an integer value to `int`: 32 bits, two's complement, wrapping. -/
def to_int (v : Int) : Int := (v + 2 ^ 31) % 2 ^ 32 - 2 ^ 31

/-- The loop `for (i = 0; i < pad_len; i++) { putchar(*p++); if (*p == 0) p = padding; }`
of `pad`, the same in padleft.c and padright.c: `n` passes are left and `p` is the offset
of the pointer `p` in `padding`, whose object is its characters and then `NUL`.  What is
written; `none` when `p` is read outside that object. -/
def pad_loop (padding : List Char) : Nat → Nat → Option (List Char)
  | 0, _ => some []
  | n + 1, p =>
    match (padding ++ [NUL])[p]?, (padding ++ [NUL])[p + 1]? with
    | some c, some d =>
      (pad_loop padding n (if d = NUL then 0 else p + 1)).map (fun t => c :: t)
    | _, _ => none

/-- The function `pad` of padleft.c: what it writes to stdout.  `none` when the
behaviour is undefined (`width - string_len` overflows, or `padding` is read past its
end). -/
def padleft_pad (string : List Char) (width : Int) (padding : List Char) :
    Option (List Char) :=
  let string_len := to_int (strlen (string ++ [NUL]))
  if width ≤ string_len then fputs (string ++ [NUL])
  else
    let pad_len := width - string_len
    if pad_len > INT_MAX then none
    else
      match pad_loop padding pad_len.toNat 0, fputs (string ++ [NUL]) with
      | some run, some t => some (run ++ t)
      | _, _ => none

/-- The function `pad` of padright.c: what it writes to stdout; `none` as for
padleft.c. -/
def padright_pad (string : List Char) (width : Int) (padding : List Char) :
    Option (List Char) :=
  let string_len := to_int (strlen (string ++ [NUL]))
  if width ≤ string_len then fputs (string ++ [NUL])
  else
    let pad_len := width - string_len
    if pad_len > INT_MAX then none
    else
      match fputs (string ++ [NUL]), pad_loop padding pad_len.toNat 0 with
      | some t, some run => some (t ++ run)
      | _, _ => none

/-- Written from the usage comment of padleft.c and padright.c: the first `k`
characters of the endless repetition of `padding` (the `i`-th is
`padding[i mod length padding]`). -/
def padding_run (padding : List Char) (k : Nat) : List Char :=
  (List.range k).map (fun i => padding.getD (i % padding.length) NUL)

/-! ## exitcode/main.c -/

/-- The function `main` of exitcode/main.c: the value it returns, which is the exit
status.  `errno` is 0 at program start, so `errno == ERANGE` is the flag of `strtol`;
`long` has 64 bits and `int` 32. -/
def exitcode_main (argv : List (List Char)) : Int :=
  match argv with
  | _ :: a :: _ =>
    if a = [] then 0
    else
      let r := strtol a 10
      let exit_code := to_int r.value
      if r.endp ≠ [] ∨ r.erange ∨ exit_code < 0 ∨ exit_code > 255 then 0 else exit_code
  | _ => 0


/-- The first `k` passes of the option loop of `args_parse`, each of which accepts its
option: the state of `getopt` and the variables after them, and the option characters
that `getopt` returned, in order.  `none` when one of these passes finds no option,
prints the help or rejects its option. -/
def args_parse_first : Nat → getopt_state → parse_state →
    Option (getopt_state × parse_state × List Char)
  | 0, st, ps => some (st, ps, [])
  | k + 1, st, ps =>
    match getopt OPTIONS st with
    | .opt c optarg st' =>
      match args_parse_switch c optarg ps with
      | .ok ps' =>
        (args_parse_first k st' ps').map (fun r => (r.1, r.2.1, c :: r.2.2))
      | _ => none
    | _ => none

/-! ## Facts about the libc model -/

theorem putc_loop_eq_replicate (c : Char) (n : Nat) : putc_loop c n = List.replicate n c := by
  induction n with
  | zero => rfl
  | succ n ih => simp [putc_loop, ih, List.replicate_succ]

theorem fputs_terminated (s : List Char) (hs : NUL ∉ s) (t : List Char) :
    fputs (s ++ NUL :: t) = some s := by
  induction s with
  | nil => simp [fputs]
  | cons c cs ih =>
    have hc : c ≠ NUL := fun h => hs (by simp [h])
    have hcs : NUL ∉ cs := fun h => hs (by simp [h])
    simp [fputs, hc, ih hcs]

theorem strlen_terminated (s : List Char) (hs : NUL ∉ s) (t : List Char) :
    strlen (s ++ NUL :: t) = s.length := by
  induction s with
  | nil => simp [strlen]
  | cons c cs ih =>
    have hc : c ≠ NUL := fun h => hs (by simp [h])
    have hcs : NUL ∉ cs := fun h => hs (by simp [h])
    simp [strlen, hc, ih hcs]

theorem fputs_no_nul (s : List Char) (hs : NUL ∉ s) : fputs s = none := by
  induction s with
  | nil => rfl
  | cons c cs ih =>
    have hc : c ≠ NUL := fun h => hs (by simp [h])
    have hcs : NUL ∉ cs := fun h => hs (by simp [h])
    simp [fputs, hc, ih hcs]

/-! ## The pad engine -/

/-- C1. With `PAD_TYPE_LEFT`, when `args.string` holds the C string `s` and
`string_len` is its length, `main` writes `pad_char` repeated `width - length s` times
(no times when `width <= length s`), then `s`. -/
theorem left_pad_output (a : args) (s : List Char)
    (hs : fputs a.string = some s) (hlen : a.string_len = s.length)
    (hl : a.pad_type = pad_type.PAD_TYPE_LEFT) :
    main_pad a = some (List.replicate (a.width - s.length) a.pad_char ++ s) := by
  unfold main_pad
  rw [hlen]
  by_cases hw : a.width ≤ s.length
  · have h0 : a.width - s.length = 0 := by omega
    simp [hw, hs, h0]
  · simp [hw, hl, hs, putc_loop_eq_replicate]

theorem left_pad_output_witness :
    main_pad ⟨7, ['h', 'i', NUL], 2, false, pad_type.PAD_TYPE_LEFT, 'x'⟩
      = some ['x', 'x', 'x', 'x', 'x', 'h', 'i'] :=
  left_pad_output ⟨7, ['h', 'i', NUL], 2, false, pad_type.PAD_TYPE_LEFT, 'x'⟩ ['h', 'i']
    (by decide) (by decide) rfl

/-- C2. With `PAD_TYPE_RIGHT`, when `args.string` holds the C string `s` and
`string_len` is its length, `main` writes `s`, then `pad_char` repeated
`width - length s` times (no times when `width <= length s`). -/
theorem right_pad_output (a : args) (s : List Char)
    (hs : fputs a.string = some s) (hlen : a.string_len = s.length)
    (hr : a.pad_type = pad_type.PAD_TYPE_RIGHT) :
    main_pad a = some (s ++ List.replicate (a.width - s.length) a.pad_char) := by
  unfold main_pad
  rw [hlen]
  by_cases hw : a.width ≤ s.length
  · have h0 : a.width - s.length = 0 := by omega
    simp [hw, hs, h0]
  · simp [hw, hr, hs, putc_loop_eq_replicate]

theorem right_pad_output_witness :
    main_pad ⟨8, ['h', 'e', 'l', 'l', 'o', NUL], 5, false, pad_type.PAD_TYPE_RIGHT, ' '⟩
      = some ['h', 'e', 'l', 'l', 'o', ' ', ' ', ' '] :=
  right_pad_output ⟨8, ['h', 'e', 'l', 'l', 'o', NUL], 5, false, pad_type.PAD_TYPE_RIGHT, ' '⟩
    ['h', 'e', 'l', 'l', 'o'] (by decide) (by decide) rfl

/-- C3. With `PAD_TYPE_CENTER` and `width >= length s`, `main` writes a left run of
`pad_char`, then `s`, then a right run; the left run has `ceil (padding / 2)`
characters, the right run the rest of `padding = width - length s`, the output has
`width` characters, and the left run is one longer than the right run when `padding`
is odd, as long as it when `padding` is even. -/
theorem center_pad_output (a : args) (s : List Char)
    (hs : fputs a.string = some s) (hlen : a.string_len = s.length)
    (hc : a.pad_type = pad_type.PAD_TYPE_CENTER) (hw : s.length ≤ a.width) :
    main_pad a = some
        (List.replicate ((a.width - s.length + 1) / 2) a.pad_char ++ s ++
          List.replicate (a.width - s.length - (a.width - s.length + 1) / 2) a.pad_char) ∧
      (List.replicate ((a.width - s.length + 1) / 2) a.pad_char ++ s ++
          List.replicate (a.width - s.length - (a.width - s.length + 1) / 2)
            a.pad_char).length = a.width ∧
      ((a.width - s.length) % 2 = 1 →
        (a.width - s.length + 1) / 2
          = (a.width - s.length - (a.width - s.length + 1) / 2) + 1) ∧
      ((a.width - s.length) % 2 = 0 →
        (a.width - s.length + 1) / 2
          = a.width - s.length - (a.width - s.length + 1) / 2) := by
  refine ⟨?_, ?_, ?_, ?_⟩
  · unfold main_pad
    rw [hlen]
    by_cases hw2 : a.width ≤ s.length
    · have h0 : a.width - s.length = 0 := by omega
      simp [hw2, hs, h0]
    · have h1 : a.width - s.length - (a.width - s.length) / 2
          = (a.width - s.length + 1) / 2 := by omega
      have h2 : a.width - s.length - (a.width - s.length + 1) / 2
          = (a.width - s.length) / 2 := by omega
      simp [hw2, hc, hs, putc_loop_eq_replicate, h1, h2]
  · simp only [List.length_append, List.length_replicate]
    omega
  · intro h; omega
  · intro h; omega

theorem center_pad_output_witness :
    main_pad ⟨8, ['h', 'e', 'l', 'l', 'o', NUL], 5, false, pad_type.PAD_TYPE_CENTER, ' '⟩
      = some ([' ', ' '] ++ ['h', 'e', 'l', 'l', 'o'] ++ [' ']) :=
  (center_pad_output
    ⟨8, ['h', 'e', 'l', 'l', 'o', NUL], 5, false, pad_type.PAD_TYPE_CENTER, ' '⟩
    ['h', 'e', 'l', 'l', 'o'] (by decide) (by decide) rfl (by decide)).1

/-- C4. When `args.string` holds the C string `s`, `string_len` is its length and
`length s >= width`, `main` writes exactly `s`, whatever the alignment and the fill
character are. -/
theorem no_padding_needed (a : args) (s : List Char)
    (hs : fputs a.string = some s) (hlen : a.string_len = s.length)
    (hw : a.width ≤ s.length) :
    main_pad a = some s := by
  unfold main_pad
  rw [hlen]
  simp [hw, hs]

theorem no_padding_needed_witness :
    main_pad ⟨3, ['h', 'e', 'l', 'l', 'o', NUL], 5, false, pad_type.PAD_TYPE_CENTER, 'x'⟩
      = some ['h', 'e', 'l', 'l', 'o'] :=
  no_padding_needed
    ⟨3, ['h', 'e', 'l', 'l', 'o', NUL], 5, false, pad_type.PAD_TYPE_CENTER, 'x'⟩
    ['h', 'e', 'l', 'l', 'o'] (by decide) (by decide) (by decide)


/-! ## The option loop always finishes -/

theorem getopt_char_size (optstring : List Char) (c : Char) (cs : List Char)
    (rest : List (List Char)) (o : Char) (optarg : List Char) (st' : getopt_state)
    (h : getopt_char optstring c cs rest = .opt o optarg st') :
    st'.size ≤ (getopt_state.mk cs rest).size := by
  unfold getopt_char at h
  split at h
  · cases h
  · cases h; exact Nat.le_refl _
  · split at h
    · cases h; simp [getopt_state.size]
    · split at h
      · cases h
      · cases h; simp [getopt_state.size]

theorem getopt_size (optstring : List Char) (st : getopt_state) (o : Char)
    (optarg : List Char) (st' : getopt_state)
    (h : getopt optstring st = .opt o optarg st') : st'.size < st.size := by
  unfold getopt at h
  split at h
  · next c cs hn =>
    have := getopt_char_size _ _ _ _ _ _ _ h
    simp [getopt_state.size, hn] at this ⊢
    omega
  · next hn =>
    split at h
    · cases h
    · next a rest hr =>
      split at h
      · next c cs =>
        split at h
        · cases h
        · have := getopt_char_size _ _ _ _ _ _ _ h
          simp [getopt_state.size, hn, hr] at this ⊢
          omega
      · cases h

theorem args_parse_switch_finishes (c : Char) (optarg : List Char) (ps : parse_state) :
    args_parse_switch c optarg ps ≠ .unfinished ∧
      args_parse_switch c optarg ps ≠ .undefined := by
  unfold args_parse_switch
  constructor <;> (repeat' split) <;> simp

/-- With more fuel than the characters left to read, the option loop does not depend on
the fuel. -/
theorem args_parse_options_fuel (n : Nat) :
    ∀ (m : Nat) (st : getopt_state) (ps : parse_state), st.size < n → st.size < m →
      args_parse_options n st ps = args_parse_options m st ps := by
  induction n with
  | zero => intro m st ps h; omega
  | succ n ih =>
    intro m st ps hn hm
    cases m with
    | zero => omega
    | succ m =>
      rw [args_parse_options, args_parse_options]
      cases hg : getopt OPTIONS st with
      | done operands => rfl
      | err st' => rfl
      | opt c optarg st' =>
        have hlt := getopt_size _ _ _ _ _ hg
        have h1 : st'.size < n := by omega
        have h2 : st'.size < m := by omega
        cases hs : args_parse_switch c optarg ps with
        | ok ps' => simpa only [hs] using ih m st' ps' h1 h2
        | exit status out => simp only [hs]
        | undefined => simp only [hs]
        | unfinished => simp only [hs]

/-- The option loop ends, with a result or an `exit`, within the fuel `args_parse`
gives it. -/
theorem args_parse_options_finishes (n : Nat) :
    ∀ (st : getopt_state) (ps : parse_state), st.size < n →
      args_parse_options n st ps ≠ .unfinished ∧
        args_parse_options n st ps ≠ .undefined := by
  induction n with
  | zero => intro st ps h; omega
  | succ n ih =>
    intro st ps hn
    rw [args_parse_options]
    cases hg : getopt OPTIONS st with
    | done operands => simp
    | err st' => simp
    | opt c optarg st' =>
      have hlt := getopt_size _ _ _ _ _ hg
      have hsw := args_parse_switch_finishes c optarg ps
      have h1 : st'.size < n := by omega
      cases hs : args_parse_switch c optarg ps with
      | ok ps' => simpa only [hs] using ih st' ps' h1
      | exit status out => simp [hs]
      | undefined => exact absurd hs hsw.2
      | unfinished => exact absurd hs hsw.1


/-! ## The model of `main` always finishes -/

theorem drain_step_finishes (env : Env) (st : drain_state) (c : Char) :
    drain_step env st c ≠ .unfinished := by
  unfold drain_step
  simp only []
  split
  · simp
  · split <;> simp

theorem drain_loop_finishes (env : Env) (input : List Char) :
    ∀ st : drain_state, drain_loop env input st ≠ .unfinished := by
  induction input with
  | nil => intro st; simp [drain_loop]
  | cons c cs ih =>
    intro st
    rw [drain_loop]
    have := drain_step_finishes env st c
    cases hs : drain_step env st c with
    | ok st' => simpa only [hs] using ih st'
    | exit status out => simp
    | undefined => simp
    | unfinished => exact absurd hs this

theorem args_parse_operands_finishes (env : Env) (ps : parse_state)
    (operands : List (List Char)) : args_parse_operands env ps operands ≠ .unfinished := by
  have hstdin : ∀ width, args_parse_stdin env width ps ≠ .unfinished := by
    intro width
    unfold args_parse_stdin
    simp only []
    split
    · simp
    · next buf _ =>
      have := drain_loop_finishes env env.stdin
        ⟨buf, if width < 1024 then width else 1024, 0⟩
      split
      · simp
      · simp
      · simp
      · next h => exact absurd h this
  unfold args_parse_operands
  split
  · split <;> simp
  · split
    · simp
    · exact hstdin _
  · simp

/-- The fuel `args_parse` gives its option loop is enough: the model of `main` never
ends for lack of fuel. -/
theorem main_finishes (argv : List (List Char)) (env : Env) :
    main argv env ≠ .unfinished := by
  have hopt := (args_parse_options_finishes ((getopt_state.mk [] argv.tail).size + 1)
    ⟨[], argv.tail⟩ parse_state_default (Nat.lt_succ_self _)).1
  have hp : args_parse argv env ≠ .unfinished := by
    unfold args_parse
    simp only []
    split
    · exact args_parse_operands_finishes _ _ _
    · simp
    · simp
    · next h => exact absurd h hopt
  unfold main
  split
  · split <;> simp
  · simp
  · simp
  · next h => exact absurd h hp

/-- C5. The streamed buffer is not written like an argument string.  With `WIDTH` 2
and `hi` on stdin the buffer has two bytes, both taken by `hi`, and `fputs` reads past
its end (or `malloc` failed); with `WIDTH` 0 the buffer never grows and the first byte
is stored outside it (or `realloc` to size 0 failed).  The same bytes given as `STRING`
are written as they are. -/
theorem streamed_differs_from_argument (mo ro : Nat → Bool) (fr : Nat → Char) :
    main [['p', 'a', 'd'], ['2'], ['h', 'i']] ⟨[], mo, ro, fr⟩
        = .terminated EXIT_SUCCESS ['h', 'i'] ∧
      main [['p', 'a', 'd'], ['2']] ⟨['h', 'i'], mo, ro, fr⟩
        = (if mo 2 then .undefined else .terminated EXIT_STATUS_MALLOC []) ∧
      main [['p', 'a', 'd'], ['0'], ['h', 'i']] ⟨[], mo, ro, fr⟩
        = .terminated EXIT_SUCCESS ['h', 'i'] ∧
      main [['p', 'a', 'd'], ['0']] ⟨['h', 'i'], mo, ro, fr⟩
        = (if mo 0 ∧ ro 0 then .undefined else .terminated EXIT_STATUS_MALLOC []) := by
  refine ⟨by rfl, ?_, by rfl, ?_⟩
  · have hp : args_parse [['p', 'a', 'd'], ['2']] ⟨['h', 'i'], mo, ro, fr⟩
        = args_parse_stdin ⟨['h', 'i'], mo, ro, fr⟩ 2 parse_state_default := by
      rfl
    unfold main
    rw [hp]
    cases h : mo 2 <;>
      simp [args_parse_stdin, malloc, h, drain_loop, drain_step, main_pad, fputs, NUL,
        List.range_succ]
  · have hp : args_parse [['p', 'a', 'd'], ['0']] ⟨['h', 'i'], mo, ro, fr⟩
        = args_parse_stdin ⟨['h', 'i'], mo, ro, fr⟩ 0 parse_state_default := by
      rfl
    unfold main
    rw [hp]
    cases h : mo 0 <;> cases h2 : ro 0 <;>
      simp [args_parse_stdin, malloc, realloc, h, h2, drain_loop, drain_step, main_pad,
        fputs, NUL, SIZE_MODULUS]


/-! ## `strtol` against the numerals of the specification -/

theorem numeral_value_cons (base : Nat) (c : Char) (cs : List Char) :
    numeral_value base (c :: cs)
      = (digit_value c).getD 0 * base ^ cs.length + numeral_value base cs := by
  simp [numeral_value, Nat.ofDigits_append, Nat.mul_comm, Nat.add_comm]

theorem strtol_digits_all (base : Nat) (ds : List Char) :
    ∀ acc : Nat, ds.all (is_digit base) = true →
      strtol_digits base ds acc = (acc * base ^ ds.length + numeral_value base ds, []) := by
  induction ds with
  | nil => intro acc _; simp [strtol_digits, numeral_value]
  | cons c cs ih =>
    intro acc h
    simp only [List.all_cons, Bool.and_eq_true] at h
    obtain ⟨hc, hcs⟩ := h
    unfold is_digit at hc
    cases hd : digit_value c with
    | none => simp [hd] at hc
    | some d =>
      simp only [hd, decide_eq_true_eq] at hc
      rw [strtol_digits]
      simp only [hd, hc, if_true]
      rw [ih _ hcs, numeral_value_cons, hd]
      simp only [Option.getD_some, List.length_cons, Prod.mk.injEq, and_true]
      ring

theorem strtol_digits_rest (base : Nat) (ds : List Char) :
    ∀ acc : Nat, ds.all (is_digit base) = false → (strtol_digits base ds acc).2 ≠ [] := by
  induction ds with
  | nil => intro acc h; simp at h
  | cons c cs ih =>
    intro acc h
    rw [strtol_digits]
    cases hd : digit_value c with
    | none => simp
    | some d =>
      by_cases hlt : d < base
      · simp only [hlt, if_true]
        apply ih
        have hc : is_digit base c = true := by simp [is_digit, hd, hlt]
        simpa [hc] using h
      · simp [hlt]


theorem strtol_digits_full (base : Nat) (ds : List Char) :
    (match strtol_digits base ds 0 with
      | (mag, []) => some mag
      | _ => none)
      = if ds.all (is_digit base) = true then some (numeral_value base ds) else none := by
  cases h : ds.all (is_digit base) with
  | true => rw [strtol_digits_all base ds 0 h]; simp
  | false =>
    have := strtol_digits_rest base ds 0 h
    rcases hr : strtol_digits base ds 0 with ⟨mag, _ | ⟨e, es⟩⟩
    · rw [hr] at this; simp at this
    · simp

/-- The same for a numeral without `0x` prefix, whose base is `b`. -/
theorem strtol_body_plain (t : List Char) (b : Nat)
    (hx : strtol_reads_0x 0 t = false)
    (hb : (if t.head? = some '0' then 8 else 10) = b) :
    (match strtol_body 0 t with
      | some (mag, []) => some mag
      | _ => none)
      = if t ≠ [] ∧ t.all (is_digit b) = true then some (numeral_value b t) else none := by
  cases t with
  | nil => simp [strtol_body, strtol_reads_0x]
  | cons c cs =>
    simp only [strtol_body, hx, Bool.false_eq_true, if_false, if_true, hb]
    by_cases hd : is_digit b c = true
    · simp only [hd, if_true]
      have := strtol_digits_full b (c :: cs)
      rcases hr : strtol_digits b (c :: cs) 0 with ⟨mag, _ | ⟨e, es⟩⟩
      · rw [hr] at this; simpa using this
      · rw [hr] at this; simpa using this
    · simp [hd]

theorem strtol_body_full (t : List Char) :
    (match strtol_body 0 t with
      | some (mag, []) => some mag
      | _ => none)
      = if (numeral_base t).2 ≠ [] ∧ (numeral_base t).2.all (is_digit (numeral_base t).1) = true
        then some (numeral_value (numeral_base t).1 (numeral_base t).2) else none := by
  rcases t with _ | ⟨c, _ | ⟨x, _ | ⟨d, r⟩⟩⟩
  · simp [strtol_body, strtol_reads_0x, numeral_base]
  · by_cases hc : c = '0'
    · rw [strtol_body_plain [c] 8 rfl (by simp [hc])]
      simp [numeral_base, hc]
    · rw [strtol_body_plain [c] 10 rfl (by simp [hc])]
      simp [numeral_base, hc]
  · by_cases hc : c = '0'
    · by_cases hxx : x = 'x' ∨ x = 'X'
      · have h8 : is_digit 8 x = false := by
          rcases hxx with h | h <;> subst h <;> decide
        rw [strtol_body_plain [c, x] 8 rfl (by simp [hc])]
        simp [numeral_base, hc, hxx, h8]
      · rw [strtol_body_plain [c, x] 8 rfl (by simp [hc])]
        simp [numeral_base, hc, hxx]
    · rw [strtol_body_plain [c, x] 10 rfl (by simp [hc])]
      simp [numeral_base, hc]
  · by_cases hc : c = '0'
    · by_cases hxx : x = 'x' ∨ x = 'X'
      · have h8 : is_digit 8 x = false := by
          rcases hxx with h | h <;> subst h <;> decide
        by_cases hd : is_digit 16 d = true
        · have hp : strtol_reads_0x 0 (c :: x :: d :: r) = true := by
            simp [strtol_reads_0x, hc, hxx, hd]
          have := strtol_digits_full 16 (d :: r)
          simp only [strtol_body, hp, if_true, List.drop_succ_cons, List.drop_zero]
          rcases hr : strtol_digits 16 (d :: r) 0 with ⟨mag, _ | ⟨e, es⟩⟩
          · rw [hr] at this; simpa [numeral_base, hc, hxx] using this
          · rw [hr] at this; simpa [numeral_base, hc, hxx] using this
        · have hp : strtol_reads_0x 0 (c :: x :: d :: r) = false := by
            simp [strtol_reads_0x, hd]
          rw [strtol_body_plain (c :: x :: d :: r) 8 hp (by simp [hc])]
          simp [numeral_base, hc, hxx, h8, hd]
      · have hp : strtol_reads_0x 0 (c :: x :: d :: r) = false := by
          simp [strtol_reads_0x, hxx]
        rw [strtol_body_plain (c :: x :: d :: r) 8 hp (by simp [hc])]
        simp [numeral_base, hc, hxx]
    · have hp : strtol_reads_0x 0 (c :: x :: d :: r) = false := by
        simp [strtol_reads_0x, hc]
      rw [strtol_body_plain (c :: x :: d :: r) 10 hp (by simp [hc])]
      simp [numeral_base, hc]


theorem strtol_clamp_endp (neg : Bool) (mag : Nat) (endp : List Char) :
    (strtol_clamp neg mag endp).endp = endp := by
  unfold strtol_clamp
  split <;> split <;> rfl

/-- The check of `WIDTH` in `args_parse` accepts exactly the texts the specification
describes, with the value it describes. -/
theorem args_parse_width_eq_literal (w : List Char) :
    args_parse_width w = width_literal w := by
  cases w with
  | nil => simp [args_parse_width, width_literal, numeral_base]
  | cons c cs =>
    by_cases hsp : isspace c = true
    · have hno : width_literal (c :: cs) = none := by
        have hc : c ≠ '+' ∧ c ≠ '-' ∧ c ≠ '0' ∧ is_digit 10 c = false := by
          simp only [isspace, Bool.or_eq_true, decide_eq_true_eq] at hsp
          rcases hsp with ((((h | h) | h) | h) | h) | h <;> subst h <;> decide
        obtain ⟨h1, h2, h3, h4⟩ := hc
        cases cs with
        | nil => simp [width_literal, numeral_base, h1, h2, h3, h4]
        | cons x xs => simp [width_literal, numeral_base, h1, h2, h3, h4]
      simp [args_parse_width, hsp, hno]
    · have hdw : List.dropWhile isspace (c :: cs) = c :: cs := by
        simp [List.dropWhile, hsp]
      have hbody := strtol_body_full
        (if c = '-' ∨ c = '+' then cs else c :: cs)
      have hsign : (if c = '+' ∨ c = '-' then cs else c :: cs)
          = (if c = '-' ∨ c = '+' then cs else c :: cs) := by
        by_cases h1 : c = '+' <;> by_cases h2 : c = '-' <;> simp [h1, h2]
      simp only [args_parse_width, hsp, Bool.false_eq_true, if_false, strtol, hdw,
        List.head?_cons, Option.some.injEq, List.tail_cons, width_literal, hsign]
      generalize (if c = '-' ∨ c = '+' then cs else c :: cs) = t at hbody ⊢
      generalize numeral_base t = nb at hbody ⊢
      rcases hb : strtol_body 0 t with _ | ⟨mag, _ | ⟨e, es⟩⟩
      · rw [hb] at hbody
        by_cases hP : nb.2 ≠ [] ∧ nb.2.all (is_digit nb.1) = true
        · simp [hP] at hbody
        · have hQ : ¬(nb.2 ≠ [] ∧ nb.2.all (is_digit nb.1) = true ∧
              numeral_value nb.1 nb.2 ≤ LONG_MAX ∧
              (c = '-' → numeral_value nb.1 nb.2 = 0)) := fun h => hP ⟨h.1, h.2.1⟩
          rw [if_neg hQ]
          simp
      · rw [hb] at hbody
        by_cases hP : nb.2 ≠ [] ∧ nb.2.all (is_digit nb.1) = true
        · rw [if_pos hP] at hbody
          simp only [Option.some.injEq] at hbody
          rw [← hbody]
          by_cases hneg : c = '-'
          · by_cases hm : mag = 0
            · subst hm
              simp [hneg, strtol_clamp, hP.1, hP.2]
            · have hpos : (0 : Int) < (mag : Int) := by omega
              by_cases hle : mag ≤ LONG_MAX + 1
              · simp [hneg, strtol_clamp, hP.1, hP.2, hm, hle, hpos]
              · simp [hneg, strtol_clamp, hP.1, hP.2, hm, hle]
          · by_cases hle : mag ≤ LONG_MAX
            · simp [hneg, strtol_clamp, hP.1, hP.2, hle]
            · simp [hneg, strtol_clamp, hP.1, hP.2, hle]
        · rw [if_neg hP] at hbody
          simp at hbody
      · rw [hb] at hbody
        by_cases hP : nb.2 ≠ [] ∧ nb.2.all (is_digit nb.1) = true
        · simp [hP] at hbody
        · have hQ : ¬(nb.2 ≠ [] ∧ nb.2.all (is_digit nb.1) = true ∧
              numeral_value nb.1 nb.2 ≤ LONG_MAX ∧
              (c = '-' → numeral_value nb.1 nb.2 = 0)) := fun h => hP ⟨h.1, h.2.1⟩
          rw [if_neg hQ]
          simp [strtol_clamp_endp]


/-! ## Options followed by further arguments -/

theorem getopt_char_append (optstring : List Char) (c : Char) (cs : List Char)
    (rest suf : List (List Char)) (o : Char) (optarg : List Char) (st' : getopt_state)
    (h : getopt_char optstring c cs rest = .opt o optarg st') :
    getopt_char optstring c cs (rest ++ suf) = .opt o optarg ⟨st'.nextchar, st'.rest ++ suf⟩ ∧
      ∀ x ∈ st'.rest, x ∈ rest := by
  unfold getopt_char at h ⊢
  split at h
  · cases h
  · next hl => cases h; simp [hl]
  · next hl =>
    split at h
    · cases h; simp [hl]
    · split at h
      · cases h
      · cases h
        simp only [hl, List.cons_append, true_and]
        exact fun x hx => List.mem_cons_of_mem _ hx

theorem getopt_append (optstring : List Char) (st : getopt_state) (suf : List (List Char))
    (o : Char) (optarg : List Char) (st' : getopt_state)
    (h : getopt optstring st = .opt o optarg st') :
    getopt optstring ⟨st.nextchar, st.rest ++ suf⟩
        = .opt o optarg ⟨st'.nextchar, st'.rest ++ suf⟩ ∧
      ∀ x ∈ st'.rest, x ∈ st.rest := by
  unfold getopt at h ⊢
  split at h
  · next c cs hn =>
    have := getopt_char_append _ _ _ _ suf _ _ _ h
    simp only [hn]
    exact this
  · next hn =>
    split at h
    · cases h
    · next a rest hr =>
      split at h
      · next c cs =>
        split at h
        · cases h
        · next hdd =>
          have := getopt_char_append _ _ _ _ suf _ _ _ h
          simp only [hn, hr, List.cons_append, hdd, if_false]
          exact ⟨this.1, fun x hx => List.mem_cons_of_mem _ (this.2 x hx)⟩
      · cases h

theorem getopt_done_nil (optstring : List Char) (st : getopt_state)
    (hdd : ['-', '-'] ∉ st.rest) (h : getopt optstring st = .done []) :
    st = ⟨[], []⟩ := by
  unfold getopt at h
  split at h
  · next c cs hn =>
    unfold getopt_char at h
    repeat' split at h
    all_goals cases h
  · next hn =>
    split at h
    · next hr => cases st; simp_all
    · next a rest hr =>
      split at h
      · next c cs =>
        split at h
        · next hc =>
          exfalso; apply hdd; rw [hr, hc.1, hc.2]; simp
        · unfold getopt_char at h
          repeat' split at h
          all_goals cases h
      · cases h

/-- Options that are accepted on their own are accepted in the same way when further
arguments follow them, and the loop goes on with those arguments. -/
theorem args_parse_options_append (n : Nat) :
    ∀ (st : getopt_state) (ps ps' : parse_state) (suf : List (List Char)) (m : Nat),
      ['-', '-'] ∉ st.rest → args_parse_options n st ps = .ok (ps', []) →
      (getopt_state.mk st.nextchar (st.rest ++ suf)).size < m →
      args_parse_options m ⟨st.nextchar, st.rest ++ suf⟩ ps
        = args_parse_options ((getopt_state.mk [] suf).size + 1) ⟨[], suf⟩ ps' := by
  induction n with
  | zero => intro st ps ps' suf m _ h; simp [args_parse_options] at h
  | succ n ih =>
    intro st ps ps' suf m hdd h hm
    rw [args_parse_options] at h
    cases hg : getopt OPTIONS st with
    | done operands =>
      simp only [hg, Run.ok.injEq, Prod.mk.injEq] at h
      obtain ⟨h1, h2⟩ := h
      subst h1 h2
      have hst := getopt_done_nil _ _ hdd hg
      subst hst
      exact args_parse_options_fuel _ _ _ _ hm (Nat.lt_succ_self _)
    | err st' => simp [hg] at h
    | opt c optarg st' =>
      simp only [hg] at h
      obtain ⟨hga, hmem⟩ := getopt_append _ _ suf _ _ _ hg
      have hlt := getopt_size _ _ _ _ _ hga
      cases m with
      | zero => omega
      | succ m =>
        rw [args_parse_options]
        simp only [hga]
        cases hs : args_parse_switch c optarg ps with
        | ok ps1 =>
          simp only [hs] at h ⊢
          exact ih st' ps1 ps' suf m (fun hx => hdd (hmem _ hx)) h (by omega)
        | exit status out => simp [hs] at h
        | undefined => simp [hs] at h
        | unfinished => simp [hs] at h


/-! ## args_parse on whole command lines -/

/-- After accepted options, `args_parse` goes on with the arguments that follow. -/
theorem args_parse_after (prog : List Char) (pre suf : List (List Char)) (ps : parse_state)
    (env : Env) (hpre : options_accepted pre ps) :
    args_parse (prog :: (pre ++ suf)) env
      = match args_parse_options ((getopt_state.mk [] suf).size + 1) ⟨[], suf⟩ ps with
        | .ok (ps', operands) => args_parse_operands env ps' operands
        | .exit status out => .exit status out
        | .undefined => .undefined
        | .unfinished => .unfinished := by
  unfold args_parse
  simp only [List.tail_cons]
  rw [args_parse_options_append _ ⟨[], pre⟩ parse_state_default ps suf _ hpre.1 hpre.2
    (Nat.lt_succ_self _)]

/-- The option loop at an element that starts with an option without argument. -/
theorem args_parse_options_flag (k : Nat) (f : Char) (more : List Char)
    (rest : List (List Char)) (ps : parse_state)
    (hf : f = 'c' ∨ f = 'h' ∨ f = 'l' ∨ f = 'r') :
    args_parse_options (k + 1) ⟨[], ('-' :: f :: more) :: rest⟩ ps
      = match args_parse_switch f [] ps with
        | .ok ps' => args_parse_options k ⟨more, rest⟩ ps'
        | .exit status out => .exit status out
        | .undefined => .undefined
        | .unfinished => .unfinished := by
  rcases hf with h | h | h | h <;> subst h <;> rfl

theorem main_of_args_parse_exit (argv : List (List Char)) (env : Env) (status : Nat)
    (out : List Char) (h : args_parse argv env = .exit status out) :
    main argv env = .terminated status out := by
  simp [main, h]


/-! ## The option resolver -/

/-- C6. `args_parse` accepts a `WIDTH` argument exactly when it is the text of a
non-negative integer as the specification describes it (`width_literal`: optional sign,
base 10 or the base its prefix announces, nothing after the digits, no overflow), and
then `args.width` is the value of that text; for every other `WIDTH` the process ends
with `EXIT_STATUS_ARG` and stdout is empty.  Shown for the check itself, for
`args_parse` with and without `STRING`, and for `main` on `-- WIDTH STRING`. -/
theorem width_accepted_iff_literal (env : Env) (ps : parse_state) (prog w s : List Char) :
    args_parse_width w = width_literal w ∧
      args_parse_operands env ps [w, s]
        = (match width_literal w with
          | some v =>
            .ok ⟨v, s ++ [NUL], strlen (s ++ [NUL]), false, ps.pad_type, ps.pad_char⟩
          | none => .exit EXIT_STATUS_ARG []) ∧
      args_parse_operands env ps [w]
        = (match width_literal w with
          | some v => args_parse_stdin env v ps
          | none => .exit EXIT_STATUS_ARG []) ∧
      main [prog, ['-', '-'], w, s] env
        = (match width_literal w with
          | some v =>
            (match main_pad ⟨v, s ++ [NUL], strlen (s ++ [NUL]), false,
                ARGS_PAD_TYPE_DEFAULT, ARGS_PAD_CHAR_DEFAULT⟩ with
              | some out => .terminated EXIT_SUCCESS out
              | none => .undefined)
          | none => .terminated EXIT_STATUS_ARG []) := by
  have hw := args_parse_width_eq_literal w
  refine ⟨hw, ?_, ?_, ?_⟩
  · simp only [args_parse_operands, hw]
    cases width_literal w <;> rfl
  · simp only [args_parse_operands, hw]
    cases width_literal w <;> rfl
  · have hp : args_parse [prog, ['-', '-'], w, s] env
        = args_parse_operands env parse_state_default [w, s] := rfl
    simp only [main, hp, args_parse_operands, hw]
    cases width_literal w <;> rfl

/-- C7, as stated, fails: with `-h` before the second alignment flag (`-c -h -l`), or
before both (`-h -c -l`), the run prints the help and ends with status 0; with an
unknown option before them it ends with `EXIT_STATUS_ERR`. -/
theorem conflict_not_reached :
    main [['p', 'a', 'd'], ['-', 'c'], ['-', 'h'], ['-', 'l'], ['8'], ['h', 'i']] (env_of [] ' ')
        = .terminated 0 help_text ∧
      main [['p', 'a', 'd'], ['-', 'h'], ['-', 'c'], ['-', 'l'], ['8'], ['h', 'i']] (env_of [] ' ')
        = .terminated 0 help_text ∧
      main [['p', 'a', 'd'], ['-', 'x'], ['-', 'c'], ['-', 'l'], ['8'], ['h', 'i']] (env_of [] ' ')
        = .terminated 1 [] ∧
      EXIT_STATUS_ARG = 2 := by
  refine ⟨by rfl, by rfl, by rfl, by rfl⟩

/-- After options `pre` that the loop accepts, an element that starts with an alignment
flag `f` ends `args_parse` with `EXIT_STATUS_ARG` and nothing on stdout, whatever the
rest of that element and the arguments after it are, when an alignment flag was
accepted before (`pad_type_set`), and in any case when the element before it is an
alignment flag `g`. -/
theorem second_flag_after_elements (prog : List Char) (pre rest : List (List Char))
    (ps : parse_state) (f : Char) (more : List Char) (env : Env)
    (hpre : options_accepted pre ps) (hf : f = 'c' ∨ f = 'l' ∨ f = 'r') :
    (ps.pad_type_set = true →
        args_parse (prog :: (pre ++ ('-' :: f :: more) :: rest)) env
            = .exit EXIT_STATUS_ARG [] ∧
          main (prog :: (pre ++ ('-' :: f :: more) :: rest)) env
            = .terminated EXIT_STATUS_ARG []) ∧
      (∀ g : Char, g = 'c' ∨ g = 'l' ∨ g = 'r' →
        args_parse (prog :: (pre ++ ['-', g] :: ('-' :: f :: more) :: rest)) env
            = .exit EXIT_STATUS_ARG [] ∧
          main (prog :: (pre ++ ['-', g] :: ('-' :: f :: more) :: rest)) env
            = .terminated EXIT_STATUS_ARG []) := by
  have hf' : f = 'c' ∨ f = 'h' ∨ f = 'l' ∨ f = 'r' := by
    rcases hf with h | h | h <;> simp [h]
  have hsw : ∀ ps1 : parse_state, ps1.pad_type_set = true →
      args_parse_switch f [] ps1 = .exit EXIT_STATUS_ARG [] := by
    intro ps1 h1
    rcases hf with h | h | h <;> subst h <;> simp [args_parse_switch, h1]
  constructor
  · intro hset
    have h1 : args_parse (prog :: (pre ++ ('-' :: f :: more) :: rest)) env
        = .exit EXIT_STATUS_ARG [] := by
      rw [args_parse_after prog pre _ ps env hpre, args_parse_options_flag _ f more rest ps hf',
        hsw ps hset]
    exact ⟨h1, main_of_args_parse_exit _ _ _ _ h1⟩
  · intro g hg
    have hg' : g = 'c' ∨ g = 'h' ∨ g = 'l' ∨ g = 'r' := by
      rcases hg with h | h | h <;> simp [h]
    have h1 : args_parse (prog :: (pre ++ ['-', g] :: ('-' :: f :: more) :: rest)) env
        = .exit EXIT_STATUS_ARG [] := by
      rw [args_parse_after prog pre _ ps env hpre, args_parse_options_flag _ g [] _ ps hg']
      by_cases hset : ps.pad_type_set = true
      · have : args_parse_switch g [] ps = .exit EXIT_STATUS_ARG [] := by
          rcases hg with h | h | h <;> subst h <;> simp [args_parse_switch, hset]
        rw [this]
      · have : ∃ ps1, args_parse_switch g [] ps = .ok ps1 ∧ ps1.pad_type_set = true := by
          rcases hg with h | h | h <;> subst h <;> simp [args_parse_switch, hset]
        obtain ⟨ps1, hps1, hset1⟩ := this
        rw [hps1]
        have hsz : (getopt_state.mk [] (['-', g] :: ('-' :: f :: more) :: rest)).size
            = ((getopt_state.mk [] rest).size + more.length + 5) + 1 := by
          simp [getopt_state.size]; omega
        simp only [hsz]
        rw [args_parse_options_flag _ f more rest ps1 hf', hsw ps1 hset1]
    exact ⟨h1, main_of_args_parse_exit _ _ _ _ h1⟩

/-- The configuration `args_parse` gives keeps the alignment and the fill character
that the option loop left. -/
theorem args_parse_stdin_keeps (env : Env) (width : Nat) (ps : parse_state) (a : args)
    (h : args_parse_stdin env width ps = .ok a) :
    a.pad_type = ps.pad_type ∧ a.pad_char = ps.pad_char := by
  unfold args_parse_stdin at h
  simp only [] at h
  cases hm : malloc env (if width < 1024 then width else 1024) with
  | none => simp [hm] at h
  | some buf =>
    simp only [hm] at h
    cases hd : drain_loop env env.stdin ⟨buf, if width < 1024 then width else 1024, 0⟩ with
    | ok st => simp only [hd, Run.ok.injEq] at h; subst h; exact ⟨rfl, rfl⟩
    | exit status out => simp [hd] at h
    | undefined => simp [hd] at h
    | unfinished => simp [hd] at h

theorem args_parse_operands_keeps (env : Env) (ps : parse_state)
    (operands : List (List Char)) (a : args)
    (h : args_parse_operands env ps operands = .ok a) :
    a.pad_type = ps.pad_type ∧ a.pad_char = ps.pad_char := by
  unfold args_parse_operands at h
  split at h
  · split at h
    · cases h
    · cases h; exact ⟨rfl, rfl⟩
  · split at h
    · cases h
    · exact args_parse_stdin_keeps _ _ _ _ h
  · cases h

/-- The option loop at `-p` followed by its operand as the next argument. -/
theorem args_parse_options_p (k : Nat) (operand : List Char) (rest : List (List Char))
    (ps : parse_state) :
    args_parse_options (k + 1) ⟨[], ['-', 'p'] :: operand :: rest⟩ ps
      = match args_parse_switch 'p' operand ps with
        | .ok ps' => args_parse_options k ⟨[], rest⟩ ps'
        | .exit status out => .exit status out
        | .undefined => .undefined
        | .unfinished => .unfinished := by
  rfl

/-- C8. For the operand of `-p`: when it is one character, `pad_char` becomes that
character (in the `switch`, and as the variable left by the options `pre`, `-p`,
operand); when it is empty or longer, `args_parse` ends the process with
`EXIT_STATUS_ARG` and nothing on stdout, whatever follows. -/
theorem pad_char_operand (prog : List Char) (pre rest : List (List Char))
    (ps : parse_state) (operand : List Char) (env : Env)
    (hpre : options_accepted pre ps) :
    (∀ ch : Char, operand = [ch] →
        args_parse_switch 'p' operand ps = .ok { ps with pad_char := ch } ∧
          args_parse_options
              ((getopt_state.mk [] (pre ++ [['-', 'p'], operand])).size + 1)
              ⟨[], pre ++ [['-', 'p'], operand]⟩ parse_state_default
            = .ok ({ ps with pad_char := ch }, [])) ∧
      (operand.length ≠ 1 →
        args_parse_switch 'p' operand ps = .exit EXIT_STATUS_ARG [] ∧
          args_parse (prog :: (pre ++ ['-', 'p'] :: operand :: rest)) env
            = .exit EXIT_STATUS_ARG [] ∧
          main (prog :: (pre ++ ['-', 'p'] :: operand :: rest)) env
            = .terminated EXIT_STATUS_ARG []) := by
  constructor
  · intro ch hch
    subst hch
    refine ⟨rfl, ?_⟩
    rw [args_parse_options_append _ ⟨[], pre⟩ parse_state_default ps _ _ hpre.1 hpre.2
      (Nat.lt_succ_self _)]
    rfl
  · intro hlen
    have hsw : args_parse_switch 'p' operand ps = .exit EXIT_STATUS_ARG [] := by
      rcases operand with _ | ⟨a, _ | ⟨b, r⟩⟩
      · rfl
      · simp at hlen
      · rfl
    have h1 : args_parse (prog :: (pre ++ ['-', 'p'] :: operand :: rest)) env
        = .exit EXIT_STATUS_ARG [] := by
      rw [args_parse_after prog pre _ ps env hpre, args_parse_options_p, hsw]
    exact ⟨hsw, h1, main_of_args_parse_exit _ _ _ _ h1⟩

theorem pad_char_operand_witness :
    args_parse_options
          ((getopt_state.mk [] ([['-', 'r']] ++ [['-', 'p'], ['x']])).size + 1)
          ⟨[], [['-', 'r']] ++ [['-', 'p'], ['x']]⟩ parse_state_default
        = .ok ({ (⟨pad_type.PAD_TYPE_RIGHT, true, ' '⟩ : parse_state) with pad_char := 'x' }, []) ∧
      main (['p', 'a', 'd'] :: ([['-', 'r']] ++ ['-', 'p'] :: ['x', 'y'] :: [['8'], ['h', 'i']]))
          (env_of [] ' ') = .terminated EXIT_STATUS_ARG [] :=
  ⟨((pad_char_operand ['p', 'a', 'd'] [['-', 'r']] [] ⟨pad_type.PAD_TYPE_RIGHT, true, ' '⟩
      ['x'] (env_of [] ' ') (by decide)).1 'x' rfl).2,
    ((pad_char_operand ['p', 'a', 'd'] [['-', 'r']] [['8'], ['h', 'i']]
      ⟨pad_type.PAD_TYPE_RIGHT, true, ' '⟩ ['x', 'y'] (env_of [] ' ') (by decide)).2
      (by decide)).2.2⟩

/-- C9, as stated, fails: an option that is rejected before `-h` is reached ends the run
first, with `EXIT_STATUS_ARG` for a second alignment flag or a malformed `-p` operand and
`EXIT_STATUS_ERR` for an unknown option, and the help is not printed. -/
theorem help_not_reached :
    main [['p', 'a', 'd'], ['-', 'c'], ['-', 'l'], ['-', 'h']] (env_of [] ' ')
        = .terminated 2 [] ∧
      main [['p', 'a', 'd'], ['-', 'p'], ['x', 'y'], ['-', 'h']] (env_of [] ' ')
        = .terminated 2 [] ∧
      main [['p', 'a', 'd'], ['-', 'x'], ['-', 'h']] (env_of [] ' ')
        = .terminated 1 [] := by
  refine ⟨by rfl, by rfl, by rfl⟩

/-- After options `pre` that the loop accepts, an element that starts with `-h` makes
the program write the help text to stdout and exit with status 0, whatever the rest of
that element and the arguments after it are. -/
theorem help_after_elements (prog : List Char) (pre rest : List (List Char))
    (ps : parse_state) (more : List Char) (env : Env)
    (hpre : options_accepted pre ps) :
    args_parse (prog :: (pre ++ ('-' :: 'h' :: more) :: rest)) env
        = .exit EXIT_SUCCESS help_text ∧
      main (prog :: (pre ++ ('-' :: 'h' :: more) :: rest)) env
        = .terminated EXIT_SUCCESS help_text := by
  have h1 : args_parse (prog :: (pre ++ ('-' :: 'h' :: more) :: rest)) env
      = .exit EXIT_SUCCESS help_text := by
    rw [args_parse_after prog pre _ ps env hpre,
      args_parse_options_flag _ 'h' more rest ps (by simp)]
    rfl
  exact ⟨h1, main_of_args_parse_exit _ _ _ _ h1⟩

theorem getopt_lookup_mem (optstring : List Char) (c : Char) (b : Bool)
    (h : getopt_lookup optstring c = some b) : c ∈ optstring ∧ c ≠ ':' := by
  induction optstring with
  | nil => simp [getopt_lookup] at h
  | cons o os ih =>
    rw [getopt_lookup] at h
    split at h
    · next hc => exact ⟨by simp [hc.1], hc.2⟩
    · exact ⟨List.mem_cons_of_mem _ (ih h).1, (ih h).2⟩

theorem getopt_char_mem (optstring : List Char) (c : Char) (cs : List Char)
    (rest : List (List Char)) (o : Char) (optarg : List Char) (st' : getopt_state)
    (h : getopt_char optstring c cs rest = .opt o optarg st') :
    o ∈ optstring ∧ o ≠ ':' := by
  unfold getopt_char at h
  split at h
  · cases h
  · next hl => cases h; exact getopt_lookup_mem _ _ _ hl
  · next hl =>
    have := getopt_lookup_mem _ _ _ hl
    split at h
    · cases h; exact this
    · split at h
      · cases h
      · cases h; exact this

/-- An option character that `getopt` returns is one of `optstring`. -/
theorem getopt_mem (optstring : List Char) (st : getopt_state) (o : Char)
    (optarg : List Char) (st' : getopt_state)
    (h : getopt optstring st = .opt o optarg st') : o ∈ optstring ∧ o ≠ ':' := by
  unfold getopt at h
  split at h
  · exact getopt_char_mem _ _ _ _ _ _ _ h
  · split at h
    · cases h
    · split at h
      · split at h
        · cases h
        · exact getopt_char_mem _ _ _ _ _ _ _ h
      · cases h

/-- C10. When the first option of the command line, if there is one, is not an
alignment flag or `-p` (so in every invocation without such an option), a configuration
that `args_parse` gives has `pad_type` `PAD_TYPE_LEFT` and `pad_char` space; and when
there is no option, with operands `WIDTH` of value `w` and `STRING` `s`, `main` writes
`w - length s` spaces, then `s`. -/
theorem default_left_space (argv : List (List Char)) (env : Env)
    (hfirst : ∀ (c : Char) (optarg : List Char) (st' : getopt_state),
      getopt OPTIONS ⟨[], argv.tail⟩ = .opt c optarg st' →
        c ≠ 'c' ∧ c ≠ 'l' ∧ c ≠ 'p' ∧ c ≠ 'r') :
    (∀ a : args, args_parse argv env = .ok a →
        a.pad_type = pad_type.PAD_TYPE_LEFT ∧ a.pad_char = ' ') ∧
      (∀ (wtext s : List Char) (w : Nat),
        getopt OPTIONS ⟨[], argv.tail⟩ = .done [wtext, s] →
        args_parse_width wtext = some w → NUL ∉ s →
        args_parse argv env
            = .ok ⟨w, s ++ [NUL], s.length, false, pad_type.PAD_TYPE_LEFT, ' '⟩ ∧
          main argv env = .terminated EXIT_SUCCESS (List.replicate (w - s.length) ' ' ++ s)) := by
  constructor
  · intro a ha
    unfold args_parse at ha
    simp only [args_parse_options] at ha
    cases hg : getopt OPTIONS ⟨[], argv.tail⟩ with
    | done operands =>
      simp only [hg] at ha
      exact args_parse_operands_keeps env parse_state_default operands a ha
    | err st' => simp [hg] at ha
    | opt c optarg st' =>
      exfalso
      obtain ⟨h1, h2, h3, h4⟩ := hfirst c optarg st' hg
      have hmem := getopt_mem _ _ _ _ _ hg
      have hc : c = 'h' := by
        have := hmem.1
        simp only [OPTIONS, List.mem_cons, List.mem_singleton, List.not_mem_nil,
          or_false] at this
        rcases this with h | h | h | h | h | h
        · exact absurd h h1
        · exact h
        · exact absurd h h2
        · exact absurd h h3
        · exact absurd h hmem.2
        · exact absurd h h4
      subst hc
      simp [hg, args_parse_switch] at ha
  · intro wtext s w hno hw hs
    have hp : args_parse argv env
        = args_parse_operands env parse_state_default [wtext, s] := by
      unfold args_parse
      simp only [args_parse_options, hno]
    have ha : args_parse argv env
        = .ok ⟨w, s ++ [NUL], s.length, false, pad_type.PAD_TYPE_LEFT, ' '⟩ := by
      rw [hp]
      simp only [args_parse_operands, hw, strlen_terminated s hs []]
      rfl
    refine ⟨ha, ?_⟩
    have hm : main_pad ⟨w, s ++ [NUL], s.length, false, pad_type.PAD_TYPE_LEFT, ' '⟩
        = some (List.replicate (w - s.length) ' ' ++ s) := by
      unfold main_pad
      by_cases hws : w ≤ s.length
      · have h0 : w - s.length = 0 := by omega
        simp [hws, fputs_terminated s hs [], h0]
      · simp [hws, fputs_terminated s hs [], putc_loop_eq_replicate]
    simp only [main, ha, hm]

theorem default_left_space_witness :
    main [['p', 'a', 'd'], ['8'], ['h', 'e', 'l', 'l', 'o']] (env_of [] 'A')
      = .terminated EXIT_SUCCESS
          (List.replicate (8 - ['h', 'e', 'l', 'l', 'o'].length) ' ' ++ ['h', 'e', 'l', 'l', 'o']) :=
  ((default_left_space [['p', 'a', 'd'], ['8'], ['h', 'e', 'l', 'l', 'o']] (env_of [] 'A')
    (fun _ _ _ h => by cases h)).2 ['8'] ['h', 'e', 'l', 'l', 'o'] 8 rfl
    (by decide) (by decide)).2

/-! ## Exit statuses and what stdout holds at an exit -/

theorem args_parse_switch_exit (c : Char) (optarg : List Char) (ps : parse_state)
    (status : Nat) (out : List Char)
    (h : args_parse_switch c optarg ps = .exit status out) :
    (status = EXIT_STATUS_ARG ∧ out = []) ∨
      (c = 'h' ∧ status = EXIT_SUCCESS ∧ out = help_text) := by
  unfold args_parse_switch at h
  repeat' split at h
  all_goals first
    | (cases h; exact Or.inl ⟨rfl, rfl⟩)
    | (cases h; exact Or.inr ⟨by assumption, rfl, rfl⟩)
    | cases h

/-- An `exit` of the option loop is the help (status 0), an option that `getopt`
rejects (`EXIT_STATUS_ERR`), or an option that the `switch` rejects
(`EXIT_STATUS_ARG`); stdout is empty in the last two. -/
theorem args_parse_options_exit (n : Nat) :
    ∀ (st : getopt_state) (ps : parse_state) (status : Nat) (out : List Char),
      args_parse_options n st ps = .exit status out →
        (status = EXIT_SUCCESS ∧ out = help_text) ∨
          (status = EXIT_STATUS_ERR ∧ out = []) ∨ (status = EXIT_STATUS_ARG ∧ out = []) := by
  induction n with
  | zero => intro st ps status out h; simp [args_parse_options] at h
  | succ n ih =>
    intro st ps status out h
    rw [args_parse_options] at h
    cases hg : getopt OPTIONS st with
    | done operands => simp [hg] at h
    | err st' =>
      simp only [hg, Run.exit.injEq] at h
      exact Or.inr (Or.inl ⟨h.1.symm, h.2.symm⟩)
    | opt c optarg st' =>
      simp only [hg] at h
      cases hs : args_parse_switch c optarg ps with
      | ok ps' => simp only [hs] at h; exact ih st' ps' status out h
      | exit status' out' =>
        simp only [hs, Run.exit.injEq] at h
        rcases args_parse_switch_exit _ _ _ _ _ hs with h1 | h1
        · exact Or.inr (Or.inr ⟨h.1 ▸ h1.1, h.2 ▸ h1.2⟩)
        · exact Or.inl ⟨h.1 ▸ h1.2.1, h.2 ▸ h1.2.2⟩
      | undefined => simp [hs] at h
      | unfinished => simp [hs] at h

theorem drain_step_exit (env : Env) (st : drain_state) (c : Char) (status : Nat)
    (out : List Char) (h : drain_step env st c = .exit status out) :
    status = EXIT_STATUS_MALLOC ∧ out = [] ∧
      env.realloc_ok (st.string_size * 2 % SIZE_MODULUS) = false := by
  unfold drain_step at h
  simp only [] at h
  by_cases hi : st.i ≥ st.string_size
  · simp only [hi, if_true, realloc] at h
    cases hr : env.realloc_ok (st.string_size * 2 % SIZE_MODULUS) with
    | false =>
      simp only [hr, Bool.false_eq_true, if_false, Option.map_none', Run.exit.injEq] at h
      exact ⟨h.1.symm, h.2.symm, rfl⟩
    | true =>
      simp only [hr, if_true, Option.map_some'] at h
      split at h <;> cases h
  · simp only [hi, if_false] at h
    split at h <;> cases h

theorem drain_loop_exit (env : Env) (input : List Char) :
    ∀ (st : drain_state) (status : Nat) (out : List Char),
      drain_loop env input st = .exit status out →
        status = EXIT_STATUS_MALLOC ∧ out = [] ∧ ∃ k, env.realloc_ok k = false := by
  induction input with
  | nil => intro st status out h; simp [drain_loop] at h
  | cons c cs ih =>
    intro st status out h
    rw [drain_loop] at h
    cases hs : drain_step env st c with
    | ok st' => simp only [hs] at h; exact ih st' status out h
    | exit status' out' =>
      simp only [hs, Run.exit.injEq] at h
      obtain ⟨h1, h2, h3⟩ := drain_step_exit _ _ _ _ _ hs
      exact ⟨h.1 ▸ h1, h.2 ▸ h2, _, h3⟩
    | undefined => simp [hs] at h
    | unfinished => simp [hs] at h

theorem args_parse_stdin_exit (env : Env) (width : Nat) (ps : parse_state) (status : Nat)
    (out : List Char) (h : args_parse_stdin env width ps = .exit status out) :
    status = EXIT_STATUS_MALLOC ∧ out = [] ∧
      ∃ k, env.malloc_ok k = false ∨ env.realloc_ok k = false := by
  unfold args_parse_stdin at h
  simp only [] at h
  cases hm : malloc env (if width < 1024 then width else 1024) with
  | none =>
    simp only [hm, Run.exit.injEq] at h
    refine ⟨h.1.symm, h.2.symm, (if width < 1024 then width else 1024), Or.inl ?_⟩
    unfold malloc at hm
    cases hk : env.malloc_ok (if width < 1024 then width else 1024) with
    | false => rfl
    | true => simp [hk] at hm
  | some buf =>
    simp only [hm] at h
    cases hd : drain_loop env env.stdin ⟨buf, if width < 1024 then width else 1024, 0⟩ with
    | ok st => simp [hd] at h
    | exit status' out' =>
      simp only [hd, Run.exit.injEq] at h
      obtain ⟨h1, h2, k, h3⟩ := drain_loop_exit _ _ _ _ _ hd
      exact ⟨h.1 ▸ h1, h.2 ▸ h2, k, Or.inr h3⟩
    | undefined => simp [hd] at h
    | unfinished => simp [hd] at h

/-- An `exit` after the option loop is a usage error (`EXIT_STATUS_ARG`) or a failed
allocation (`EXIT_STATUS_MALLOC`); stdout is empty. -/
theorem args_parse_operands_exit (env : Env) (ps : parse_state)
    (operands : List (List Char)) (status : Nat) (out : List Char)
    (h : args_parse_operands env ps operands = .exit status out) :
    out = [] ∧ (status = EXIT_STATUS_ARG ∨
      (status = EXIT_STATUS_MALLOC ∧
        ∃ k, env.malloc_ok k = false ∨ env.realloc_ok k = false)) := by
  unfold args_parse_operands at h
  split at h
  · split at h
    · cases h; exact ⟨rfl, Or.inl rfl⟩
    · cases h
  · split at h
    · cases h; exact ⟨rfl, Or.inl rfl⟩
    · obtain ⟨h1, h2, h3⟩ := args_parse_stdin_exit _ _ _ _ _ h
      exact ⟨h2, Or.inr ⟨h1, h3⟩⟩
  · cases h; exact ⟨rfl, Or.inl rfl⟩

/-- Every `exit` of `args_parse`. -/
theorem args_parse_exit (argv : List (List Char)) (env : Env) (status : Nat)
    (out : List Char) (h : args_parse argv env = .exit status out) :
    (status = EXIT_SUCCESS ∧ out = help_text) ∨
      (status = EXIT_STATUS_ERR ∧ out = []) ∨ (status = EXIT_STATUS_ARG ∧ out = []) ∨
      (status = EXIT_STATUS_MALLOC ∧ out = [] ∧
        ∃ k, env.malloc_ok k = false ∨ env.realloc_ok k = false) := by
  unfold args_parse at h
  simp only [] at h
  split at h
  · obtain ⟨h1, h2⟩ := args_parse_operands_exit _ _ _ _ _ h
    rcases h2 with h2 | h2
    · exact Or.inr (Or.inr (Or.inl ⟨h2, h1⟩))
    · exact Or.inr (Or.inr (Or.inr ⟨h2.1, h1, h2.2⟩))
  · next status' out' hopt =>
    cases h
    rcases args_parse_options_exit _ _ _ _ _ hopt with h1 | h1 | h1
    · exact Or.inl h1
    · exact Or.inr (Or.inl h1)
    · exact Or.inr (Or.inr (Or.inl h1))
  · cases h
  · cases h

/-- How `main` ends when it ends: by an `exit` of `args_parse`, or by returning 0. -/
theorem main_terminated (argv : List (List Char)) (env : Env) (status : Nat)
    (out : List Char) (h : main argv env = .terminated status out) :
    args_parse argv env = .exit status out ∨
      (status = EXIT_SUCCESS ∧ ∃ a, args_parse argv env = .ok a ∧ main_pad a = some out) := by
  unfold main at h
  split at h
  · next a ha =>
    split at h
    · next o ho => cases h; exact Or.inr ⟨rfl, a, ha, ho⟩
    · cases h
  · next s o hs => cases h; exact Or.inl hs
  · cases h
  · cases h

/-- C11. Whenever a run of `main` ends with a non-zero exit status, nothing has been
written to stdout. -/
theorem error_exit_writes_nothing (argv : List (List Char)) (env : Env) (status : Nat)
    (out : List Char) (h : main argv env = .terminated status out) (hs : status ≠ 0) :
    out = [] := by
  rcases main_terminated _ _ _ _ h with h1 | h1
  · rcases args_parse_exit _ _ _ _ h1 with h2 | h2 | h2 | h2
    · exact absurd h2.1 hs
    · exact h2.2
    · exact h2.2
    · exact h2.2.1
  · exact absurd h1.1 hs

theorem error_exit_writes_nothing_witness :
    main [['p', 'a', 'd'], ['-', 'c'], ['a', 'b', 'c'], ['h', 'i']] (env_of [] ' ')
        = .terminated 2 [] ∧ (2 : Nat) ≠ 0 ∧ ([] : List Char) = [] :=
  ⟨by rfl, by decide,
    error_exit_writes_nothing [['p', 'a', 'd'], ['-', 'c'], ['a', 'b', 'c'], ['h', 'i']]
      (env_of [] ' ') 2 [] (by rfl) (by decide)⟩

/-- C12, as stated, fails: an option that `getopt` rejects (an unknown option
character, `-p` without operand) ends the run with `EXIT_STATUS_ERR`, which is 1, while
a malformed `WIDTH` ends it with `EXIT_STATUS_ARG`, which is 2. -/
theorem usage_errors_two_statuses :
    main [['p', 'a', 'd'], ['-', 'x'], ['8'], ['h', 'i']] (env_of [] ' ')
        = .terminated 1 [] ∧
      main [['p', 'a', 'd'], ['-', 'p']] (env_of [] ' ') = .terminated 1 [] ∧
      main [['p', 'a', 'd'], ['a', 'b', 'c'], ['h', 'i']] (env_of [] ' ')
        = .terminated 2 [] ∧
      (1 : Nat) ≠ 2 := by
  refine ⟨by rfl, by rfl, by rfl, by decide⟩

/-- C12, amended.  A run of `main` that ends does so with status 0, `EXIT_STATUS_ERR`,
`EXIT_STATUS_ARG` or `EXIT_STATUS_MALLOC`, the last only when an allocation failed.
An option the `switch` rejects (second alignment flag, malformed `-p` operand), a wrong
number of operands and a malformed `WIDTH` give `EXIT_STATUS_ARG`; an option `getopt`
rejects gives `EXIT_STATUS_ERR`; a failed `malloc` gives `EXIT_STATUS_MALLOC`.  The
three statuses are non-zero and differ from each other. -/
theorem exit_status_taxonomy (argv : List (List Char)) (env : Env) (status : Nat)
    (out : List Char) (h : main argv env = .terminated status out) :
    (status = EXIT_SUCCESS ∨ status = EXIT_STATUS_ERR ∨ status = EXIT_STATUS_ARG ∨
        (status = EXIT_STATUS_MALLOC ∧
          ∃ k, env.malloc_ok k = false ∨ env.realloc_ok k = false)) ∧
      (∀ (c : Char) (optarg : List Char) (ps : parse_state) (s : Nat) (o : List Char),
        args_parse_switch c optarg ps = .exit s o → c ≠ 'h' → s = EXIT_STATUS_ARG) ∧
      (∀ (fuel : Nat) (st st' : getopt_state) (ps : parse_state),
        getopt OPTIONS st = .err st' →
          args_parse_options (fuel + 1) st ps = .exit EXIT_STATUS_ERR []) ∧
      (∀ (ps : parse_state) (operands : List (List Char)),
        operands.length ≠ 1 → operands.length ≠ 2 →
          args_parse_operands env ps operands = .exit EXIT_STATUS_ARG []) ∧
      (∀ (ps : parse_state) (w : List Char) (rest : List (List Char)),
        args_parse_width w = none →
          args_parse_operands env ps (w :: rest) = .exit EXIT_STATUS_ARG []) ∧
      (∀ (ps : parse_state) (width : Nat),
        env.malloc_ok (if width < 1024 then width else 1024) = false →
          args_parse_stdin env width ps = .exit EXIT_STATUS_MALLOC []) ∧
      (EXIT_STATUS_ERR ≠ 0 ∧ EXIT_STATUS_ARG ≠ 0 ∧ EXIT_STATUS_MALLOC ≠ 0 ∧
        EXIT_STATUS_ERR ≠ EXIT_STATUS_ARG ∧ EXIT_STATUS_ERR ≠ EXIT_STATUS_MALLOC ∧
        EXIT_STATUS_ARG ≠ EXIT_STATUS_MALLOC) := by
  refine ⟨?_, ?_, ?_, ?_, ?_, ?_, by decide⟩
  · rcases main_terminated _ _ _ _ h with h1 | h1
    · rcases args_parse_exit _ _ _ _ h1 with h2 | h2 | h2 | h2
      · exact Or.inl h2.1
      · exact Or.inr (Or.inl h2.1)
      · exact Or.inr (Or.inr (Or.inl h2.1))
      · exact Or.inr (Or.inr (Or.inr ⟨h2.1, h2.2.2⟩))
    · exact Or.inl h1.1
  · intro c optarg ps s o hsw hc
    rcases args_parse_switch_exit _ _ _ _ _ hsw with h1 | h1
    · exact h1.1
    · exact absurd h1.1 hc
  · intro fuel st st' ps hg
    rw [args_parse_options]
    simp only [hg]
  · intro ps operands h1 h2
    rcases operands with _ | ⟨a, _ | ⟨b, _ | ⟨c, r⟩⟩⟩
    · rfl
    · simp at h1
    · simp at h2
    · rfl
  · intro ps w rest hw
    rcases rest with _ | ⟨b, _ | ⟨c, r⟩⟩
    · simp only [args_parse_operands, hw]
    · simp only [args_parse_operands, hw]
    · rfl
  · intro ps width hm
    simp only [args_parse_stdin, malloc, hm, Bool.false_eq_true, if_false]

theorem exit_status_taxonomy_witness :
    main [['p', 'a', 'd'], ['-', 'r'], ['-', 'r'], ['8'], ['h', 'i']] (env_of [] ' ')
        = .terminated 2 [] ∧
      (2 = EXIT_SUCCESS ∨ 2 = EXIT_STATUS_ERR ∨ 2 = EXIT_STATUS_ARG ∨
        (2 = EXIT_STATUS_MALLOC ∧
          ∃ k, (env_of [] ' ').malloc_ok k = false ∨ (env_of [] ' ').realloc_ok k = false)) :=
  ⟨by rfl,
    (exit_status_taxonomy [['p', 'a', 'd'], ['-', 'r'], ['-', 'r'], ['8'], ['h', 'i']]
      (env_of [] ' ') 2 [] (by rfl)).1⟩

/-! ## Idempotence -/

theorem fputs_result_no_nul (obj s : List Char) (h : fputs obj = some s) :
    NUL ∉ s := by
  induction obj generalizing s with
  | nil => simp [fputs] at h
  | cons c cs ih =>
    rw [fputs] at h
    by_cases hc : c = NUL
    · simp only [hc, if_true, Option.some.injEq] at h
      subst h; simp
    · simp only [hc, if_false, Option.map_eq_some'] at h
      obtain ⟨t, ht, rfl⟩ := h
      have := ih t ht
      simp only [List.mem_cons, not_or]
      exact ⟨fun h => hc h.symm, this⟩

/-- What `main` writes has at least `width` characters, and no `NUL` among them when
the fill character is not `NUL`. -/
theorem main_pad_length (a : args) (s out : List Char)
    (hs : fputs a.string = some s) (hlen : a.string_len = s.length)
    (h : main_pad a = some out) :
    a.width ≤ out.length ∧ (a.pad_char ≠ NUL → NUL ∉ out) := by
  have hn := fputs_result_no_nul _ _ hs
  unfold main_pad at h
  rw [hlen, hs] at h
  by_cases hw : a.width ≤ s.length
  · simp only [hw, if_true, Option.some.injEq] at h
    subst h; exact ⟨hw, fun _ => hn⟩
  · simp only [hw, if_false] at h
    cases hp : a.pad_type <;> simp only [hp, Option.map_some', Option.some.injEq] at h <;>
      subst h <;> refine ⟨by simp [putc_loop_eq_replicate]; omega, fun hc => ?_⟩ <;>
      simp only [putc_loop_eq_replicate, List.mem_append, List.mem_replicate, not_or,
        not_and] <;>
      simp [hn, Ne.symm hc]

/-- C13. Padding is idempotent: when a run with content `s` writes `out`, a run with
the same width whose content is `out` writes `out` again, whatever its alignment and
fill character are, so with the same ones too; this holds for every configuration
that holds `out`, and for the one `args_parse` builds from `out` given as `STRING`. -/
theorem padding_idempotent (a : args) (s out : List Char)
    (hs : fputs a.string = some s) (hlen : a.string_len = s.length)
    (h : main_pad a = some out) :
    (∀ a2 : args, fputs a2.string = some out → a2.string_len = out.length →
        a2.width = a.width → main_pad a2 = some out) ∧
      (a.pad_char ≠ NUL →
        main_pad ⟨a.width, out ++ [NUL], strlen (out ++ [NUL]), false, a.pad_type,
          a.pad_char⟩ = some out) := by
  have hle := main_pad_length a s out hs hlen h
  have key : ∀ a2 : args, fputs a2.string = some out → a2.string_len = out.length →
      a2.width = a.width → main_pad a2 = some out := by
    intro a2 hs2 hlen2 hw
    unfold main_pad
    rw [hlen2, hw]
    simp [hle.1, hs2]
  refine ⟨key, fun hc => ?_⟩
  have hn := hle.2 hc
  exact key _ (fputs_terminated out hn []) (strlen_terminated out hn []) rfl

theorem padding_idempotent_witness :
    main_pad ⟨8, ['h', 'i', NUL], 2, false, pad_type.PAD_TYPE_CENTER, 'x'⟩
        = some ['x', 'x', 'x', 'h', 'i', 'x', 'x', 'x'] ∧
      main_pad ⟨8, ['x', 'x', 'x', 'h', 'i', 'x', 'x', 'x'] ++ [NUL],
          strlen (['x', 'x', 'x', 'h', 'i', 'x', 'x', 'x'] ++ [NUL]), false,
          pad_type.PAD_TYPE_CENTER, 'x'⟩
        = some ['x', 'x', 'x', 'h', 'i', 'x', 'x', 'x'] :=
  ⟨by decide,
    (padding_idempotent ⟨8, ['h', 'i', NUL], 2, false, pad_type.PAD_TYPE_CENTER, 'x'⟩
      ['h', 'i'] ['x', 'x', 'x', 'h', 'i', 'x', 'x', 'x']
      (by decide) (by decide) (by decide)).2 (by decide)⟩

/-! ## padleft.c and padright.c -/

theorem padding_object_get (padding : List Char) (hn : NUL ∉ padding) (p : Nat)
    (hp : p < padding.length) :
    (padding ++ [NUL])[p]? = some (padding.getD p NUL) ∧ padding.getD p NUL ≠ NUL := by
  have h1 : (padding ++ [NUL])[p]? = padding[p]? := List.getElem?_append_left hp
  have h2 : padding[p]? = some padding[p] := List.getElem?_eq_getElem hp
  have h3 : padding.getD p NUL = padding[p] := by
    simp [List.getD_eq_getElem?_getD, h2]
  refine ⟨by rw [h1, h2, h3], ?_⟩
  rw [h3]
  intro h
  exact hn (h ▸ List.getElem_mem hp)

theorem padding_object_end (padding : List Char) :
    (padding ++ [NUL])[padding.length]? = some NUL := by
  simp

/-- The padding loop writes the repetition of `padding`, from the offset it starts
at. -/
theorem pad_loop_run (padding : List Char) (hne : padding ≠ []) (hn : NUL ∉ padding)
    (n : Nat) :
    ∀ p : Nat, p < padding.length →
      pad_loop padding n p
        = some ((List.range n).map
            (fun i => padding.getD ((p + i) % padding.length) NUL)) := by
  induction n with
  | zero => intro p _; simp [pad_loop]
  | succ n ih =>
    intro p hp
    have hlen : 0 < padding.length := List.length_pos.mpr hne
    rw [pad_loop, (padding_object_get padding hn p hp).1]
    by_cases hlast : p + 1 < padding.length
    · obtain ⟨hg, hnn⟩ := padding_object_get padding hn (p + 1) hlast
      rw [hg]
      simp only [hnn, if_false]
      rw [ih (p + 1) hlast, List.range_succ_eq_map]
      simp only [Option.map_some', List.map_cons, List.map_map, Nat.add_zero,
        Nat.mod_eq_of_lt hp, Option.some.injEq, List.cons.injEq, true_and]
      apply List.map_congr_left
      intro i _
      simp only [Function.comp, Nat.succ_eq_add_one]
      congr 2
      omega
    · have hend : p + 1 = padding.length := by omega
      rw [hend, padding_object_end]
      simp only [if_true]
      rw [ih 0 hlen, List.range_succ_eq_map]
      simp only [Option.map_some', List.map_cons, List.map_map, Nat.add_zero,
        Nat.mod_eq_of_lt hp, Option.some.injEq, List.cons.injEq, true_and]
      apply List.map_congr_left
      intro i _
      simp only [Function.comp, Nat.succ_eq_add_one, Nat.zero_add]
      congr 1
      rw [show p + (i + 1) = i + padding.length by omega, Nat.add_mod_right]

theorem to_int_of_le (n : Nat) (h : n ≤ INT_MAX) : to_int (n : Int) = (n : Int) := by
  unfold to_int
  unfold INT_MAX at h
  norm_num at h ⊢
  omega

/-- What the two `pad` functions compute: the padding run, before or after the
string. -/
theorem pad_functions_eq (s p : List Char) (w : Int)
    (hs : NUL ∉ s) (hslen : s.length ≤ INT_MAX) (hp : p ≠ []) (hpn : NUL ∉ p)
    (hw : w ≤ INT_MAX) :
    padleft_pad s w p = some (padding_run p (w - s.length).toNat ++ s) ∧
      padright_pad s w p = some (s ++ padding_run p (w - s.length).toNat) := by
  have hlen : 0 < p.length := List.length_pos.mpr hp
  have hsl : to_int ((strlen (s ++ [NUL]) : Nat) : Int) = (s.length : Int) := by
    rw [strlen_terminated s hs [], to_int_of_le _ hslen]
  have hf := fputs_terminated s hs []
  unfold padleft_pad padright_pad
  simp only [hsl, hf]
  by_cases hle : w ≤ (s.length : Int)
  · have h0 : (w - (s.length : Int)).toNat = 0 := by omega
    simp [hle, h0, padding_run]
  · have hnot : ¬ (w - (s.length : Int) > (INT_MAX : Int)) := by omega
    have hrun := pad_loop_run p hp hpn (w - (s.length : Int)).toNat 0 hlen
    simp only [Nat.zero_add] at hrun
    simp only [hle, if_false, hnot, hrun, padding_run, and_self]

/-- C14. In padleft.c, for a string `s`, an `int` `w` and a non-empty `padding`, `pad`
writes the first `max 0 (w - length s)` characters of the endless repetition of
`padding` (the `i`-th is `padding[i mod length padding]`), then `s`; so `s` alone when
`w <= length s`.  The length of `s` fits an `int`, as `string_len` is one. -/
theorem padleft_writes_run (s p : List Char) (w : Int)
    (hs : NUL ∉ s) (hslen : s.length ≤ INT_MAX) (hp : p ≠ []) (hpn : NUL ∉ p)
    (hw : w ≤ INT_MAX) :
    padleft_pad s w p
        = some ((List.range (max 0 (w - s.length)).toNat).map
            (fun i => p.getD (i % p.length) NUL) ++ s) ∧
      (w ≤ s.length → padleft_pad s w p = some s) := by
  have h := (pad_functions_eq s p w hs hslen hp hpn hw).1
  have hmax : (max 0 (w - (s.length : Int))).toNat = (w - (s.length : Int)).toNat := by
    omega
  refine ⟨by rw [h, hmax]; rfl, fun hle => ?_⟩
  have h0 : (w - (s.length : Int)).toNat = 0 := by omega
  rw [h, h0]
  rfl

theorem padleft_writes_run_witness :
    padleft_pad ['h', 'e', 'l', 'l', 'o'] 12 ['a', 'b', 'c']
      = some ((List.range (max 0 ((12 : Int) - ['h', 'e', 'l', 'l', 'o'].length)).toNat).map
          (fun i => ['a', 'b', 'c'].getD (i % ['a', 'b', 'c'].length) NUL)
            ++ ['h', 'e', 'l', 'l', 'o']) :=
  (padleft_writes_run ['h', 'e', 'l', 'l', 'o'] ['a', 'b', 'c'] 12
    (by decide) (by decide) (by decide) (by decide) (by decide)).1

/-- C15. padright.c mirrors padleft.c: for a string `s`, an `int` `w` and a non-empty
`padding`, when padleft's `pad` writes `P` and then `s`, padright's `pad` writes `s` and
then the same `P`, which is the repetition of `padding` from its first character, cut
after `max 0 (w - length s)` characters. -/
theorem padright_mirrors_padleft (s p : List Char) (w : Int)
    (hs : NUL ∉ s) (hslen : s.length ≤ INT_MAX) (hp : p ≠ []) (hpn : NUL ∉ p)
    (hw : w ≤ INT_MAX) :
    (∀ P : List Char, padleft_pad s w p = some (P ++ s) →
        padright_pad s w p = some (s ++ P)) ∧
      padright_pad s w p = some (s ++ padding_run p (w - s.length).toNat) ∧
      padleft_pad s w p = some (padding_run p (w - s.length).toNat ++ s) := by
  obtain ⟨hl, hr⟩ := pad_functions_eq s p w hs hslen hp hpn hw
  refine ⟨fun P hP => ?_, hr, hl⟩
  rw [hl, Option.some.injEq] at hP
  have := List.append_cancel_right hP
  rw [hr, this]

theorem padright_mirrors_padleft_witness :
    padright_pad ['h', 'e', 'l', 'l', 'o'] 12 ['a', 'b', 'c']
      = some (['h', 'e', 'l', 'l', 'o'] ++ ['a', 'b', 'c', 'a', 'b', 'c', 'a']) :=
  (padright_mirrors_padleft ['h', 'e', 'l', 'l', 'o'] ['a', 'b', 'c'] 12
    (by decide) (by decide) (by decide) (by decide) (by decide)).1
    ['a', 'b', 'c', 'a', 'b', 'c', 'a'] (by decide)

theorem padding_run_single (c : Char) (k : Nat) :
    padding_run [c] k = List.replicate k c := by
  unfold padding_run
  induction k with
  | zero => rfl
  | succ k ih =>
    rw [List.range_succ, List.map_append, ih, List.replicate_succ']
    simp [Nat.mod_one]

/-- C20. pad.c agrees with the historical variants on their common inputs: for a string
`s`, a width `w` that fits an `int` and a fill character `c`, `main` of pad.c with
`PAD_TYPE_LEFT` and `pad_char` `c` writes what `pad (s, w, "c")` of padleft.c writes,
and with `PAD_TYPE_RIGHT` what `pad (s, w, "c")` of padright.c writes. -/
theorem pad_agrees_with_variants (s : List Char) (w : Nat) (c : Char)
    (hs : NUL ∉ s) (hslen : s.length ≤ INT_MAX) (hc : c ≠ NUL) (hw : w ≤ INT_MAX) :
    main_pad ⟨w, s ++ [NUL], strlen (s ++ [NUL]), false, pad_type.PAD_TYPE_LEFT, c⟩
        = padleft_pad s (w : Int) [c] ∧
      main_pad ⟨w, s ++ [NUL], strlen (s ++ [NUL]), false, pad_type.PAD_TYPE_RIGHT, c⟩
        = padright_pad s (w : Int) [c] := by
  have hcn : NUL ∉ [c] := by simp [Ne.symm hc]
  have hwi : (w : Int) ≤ (INT_MAX : Int) := by exact_mod_cast hw
  obtain ⟨hl, hr⟩ := pad_functions_eq s [c] (w : Int) hs hslen (by simp) hcn hwi
  have hk : ((w : Int) - (s.length : Int)).toNat = w - s.length := by omega
  rw [hl, hr, hk, padding_run_single]
  have hf := fputs_terminated s hs []
  have hl := strlen_terminated s hs []
  unfold main_pad
  simp only [hl, hf]
  by_cases hle : w ≤ s.length
  · have h0 : w - s.length = 0 := by omega
    simp [hle, h0]
  · simp [hle, putc_loop_eq_replicate]

theorem pad_agrees_with_variants_witness :
    main_pad ⟨7, ['h', 'i'] ++ [NUL], strlen (['h', 'i'] ++ [NUL]), false,
        pad_type.PAD_TYPE_LEFT, 'x'⟩ = padleft_pad ['h', 'i'] ((7 : Nat) : Int) ['x'] ∧
      main_pad ⟨7, ['h', 'i'] ++ [NUL], strlen (['h', 'i'] ++ [NUL]), false,
        pad_type.PAD_TYPE_RIGHT, 'x'⟩ = padright_pad ['h', 'i'] ((7 : Nat) : Int) ['x'] :=
  pad_agrees_with_variants ['h', 'i'] 7 'x' (by decide) (by decide) (by decide) (by decide)

/-! ## The stdin loop -/

theorem take_succ_set (l : List Char) (c : Char) :
    ∀ m : Nat, m < l.length → (l.set m c).take (m + 1) = l.take m ++ [c] := by
  induction l with
  | nil => intro m h; simp at h
  | cons a as ih =>
    intro m h
    cases m with
    | zero => simp
    | succ m =>
      simp only [List.length_cons, Nat.add_lt_add_iff_right] at h
      simp [ih m h]

/-- One pass of the stdin loop on a buffer that is not empty, when `realloc` succeeds:
the capacity doubles exactly when the buffer is full, the byte is stored inside the
buffer, and the bytes stored before are kept. -/
theorem drain_step_ok (env : Env) (hre : ∀ k, env.realloc_ok k = true)
    (st : drain_state) (c : Char)
    (hlen : st.string.length = st.string_size) (hi : st.i ≤ st.string_size)
    (hpos : 1 ≤ st.string_size) (hbound : st.i < 2 ^ 63) :
    ∃ st' : drain_state, drain_step env st c = .ok st' ∧
      st'.string_size = (if st.string_size ≤ st.i then 2 * st.string_size
        else st.string_size) ∧
      st'.string.length = st'.string_size ∧ st'.i = st.i + 1 ∧
      st.i < st'.string_size ∧
      st'.string.take (st.i + 1) = st.string.take st.i ++ [c] := by
  unfold drain_step
  simp only []
  by_cases hfull : st.i ≥ st.string_size
  · have hsz : st.string_size * 2 % SIZE_MODULUS = 2 * st.string_size := by
      unfold SIZE_MODULUS
      have : st.string_size * 2 < 2 ^ 64 := by omega
      rw [Nat.mod_eq_of_lt this]; omega
    have hlen2 : (List.take (2 * st.string_size) st.string ++
        List.map env.fresh (List.range (2 * st.string_size - st.string.length))).length
          = 2 * st.string_size := by
      simp only [List.length_append, List.length_take, List.length_map, List.length_range]
      omega
    have htake : List.take (2 * st.string_size) st.string = st.string :=
      List.take_of_length_le (by omega)
    simp only [hfull, if_true, realloc, hre, hsz, Option.map_some', hlen2]
    have hlt : st.i < 2 * st.string_size := by omega
    simp only [hlt, if_true]
    refine ⟨_, rfl, ?_, ?_, rfl, hlt, ?_⟩
    · simp [show st.string_size ≤ st.i from hfull]
    · simp only [List.length_set]; exact hlen2
    · simp only []
      rw [take_succ_set _ _ _ (by rw [hlen2]; exact hlt), htake,
        List.take_append_of_le_length (by omega)]
  · have hlt : st.i < st.string.length := by omega
    simp only [hfull, if_false, hlt, if_true]
    refine ⟨_, rfl, ?_, ?_, rfl, by simp only []; omega, ?_⟩
    · simp [show ¬ st.string_size ≤ st.i from hfull]
    · simp only [List.length_set]; exact hlen
    · simp only []
      exact take_succ_set _ _ _ hlt

/-- The stdin loop on a buffer of capacity `c0 * 2 ^ j` (`c0 >= 1`) that holds the
bytes `done` read so far, `j` being the least exponent for which they fit, when
`realloc` succeeds: it ends with all the bytes stored in order, in a buffer of capacity
`c0 * 2 ^ k` with `k` the least exponent for which they fit, after `k - j` calls of
`realloc`. -/
theorem drain_loop_ok (env : Env) (hre : ∀ k, env.realloc_ok k = true) (c0 : Nat)
    (hc0 : 1 ≤ c0) :
    ∀ (input : List Char) (st : drain_state) (j : Nat) (done : List Char),
      st.string_size = c0 * 2 ^ j → st.string.length = st.string_size →
      st.i = done.length → st.string.take st.i = done →
      done.length ≤ st.string_size →
      (∀ j', j' < j → c0 * 2 ^ j' < done.length) →
      done.length + input.length ≤ 2 ^ 63 →
      ∃ (st' : drain_state) (k : Nat), drain_loop env input st = .ok st' ∧
        st'.string_size = c0 * 2 ^ k ∧ st'.string.length = st'.string_size ∧
        st'.i = done.length + input.length ∧ st'.string.take st'.i = done ++ input ∧
        done.length + input.length ≤ st'.string_size ∧
        (∀ j', j' < k → c0 * 2 ^ j' < done.length + input.length) ∧
        j ≤ k ∧ drain_reallocs env input st = k - j := by
  intro input
  induction input with
  | nil =>
    intro st j done hsz hlen hi htake hle hleast _
    refine ⟨st, j, rfl, hsz, hlen, by simpa using hi, by simpa using htake,
      by simpa using hle, by simpa using hleast, Nat.le_refl _, by simp [drain_reallocs]⟩
  | cons c cs ih =>
    intro st j done hsz hlen hi htake hle hleast hbound
    simp only [List.length_cons] at hbound
    have hpos : 1 ≤ st.string_size := by
      rw [hsz]; exact Nat.mul_pos hc0 (Nat.pos_pow_of_pos j (by decide))
    obtain ⟨st1, hstep, hsz1, hlen1, hi1, hin1, htake1⟩ :=
      drain_step_ok env hre st c hlen (by omega) hpos (by omega)
    rw [hi] at hsz1 hi1 hin1 htake1
    rw [hi] at htake
    rw [htake] at htake1
    by_cases hfull : st.string_size ≤ done.length
    · simp only [hfull, if_true] at hsz1
      have hsz1' : st1.string_size = c0 * 2 ^ (j + 1) := by
        rw [hsz1, hsz, Nat.pow_succ]; ring
      have hleast1 : ∀ j', j' < j + 1 → c0 * 2 ^ j' < (done ++ [c]).length := by
        intro j' hj'
        have h1 : 2 ^ j' ≤ 2 ^ j := Nat.pow_le_pow_right (by decide) (by omega)
        have h2 : c0 * 2 ^ j' ≤ c0 * 2 ^ j := Nat.mul_le_mul_left _ h1
        simp only [List.length_append, List.length_singleton]
        omega
      obtain ⟨st', k, hloop, h1, h2, h3, h4, h5, h6, h7, h8⟩ :=
        ih st1 (j + 1) (done ++ [c]) hsz1' hlen1 (by simp [hi1])
          (by rw [hi1]; exact htake1) (by simp; omega) hleast1 (by simp; omega)
      refine ⟨st', k, ?_, h1, h2, ?_, ?_, ?_, ?_, by omega, ?_⟩
      · rw [drain_loop]; simp only [hstep]; exact hloop
      · simpa [Nat.add_assoc, Nat.add_comm 1] using h3
      · simpa using h4
      · simpa [Nat.add_assoc, Nat.add_comm 1] using h5
      · simpa [Nat.add_assoc, Nat.add_comm 1] using h6
      · rw [drain_reallocs]
        simp only [hstep, hi, ge_iff_le, hfull, if_true, h8]
        omega
    · simp only [hfull, if_false] at hsz1
      have hleast1 : ∀ j', j' < j → c0 * 2 ^ j' < (done ++ [c]).length := by
        intro j' hj'
        have := hleast j' hj'
        simp only [List.length_append, List.length_singleton]
        omega
      obtain ⟨st', k, hloop, h1, h2, h3, h4, h5, h6, h7, h8⟩ :=
        ih st1 j (done ++ [c]) (by rw [hsz1, hsz]) hlen1 (by simp [hi1])
          (by rw [hi1]; exact htake1) (by simp; omega) hleast1 (by simp; omega)
      refine ⟨st', k, ?_, h1, h2, ?_, ?_, ?_, ?_, h7, ?_⟩
      · rw [drain_loop]; simp only [hstep]; exact hloop
      · simpa [Nat.add_assoc, Nat.add_comm 1] using h3
      · simpa using h4
      · simpa [Nat.add_assoc, Nat.add_comm 1] using h5
      · simpa [Nat.add_assoc, Nat.add_comm 1] using h6
      · rw [drain_reallocs]
        simp only [hstep, hi, ge_iff_le, hfull, if_false, h8]
        omega

/-- With `WIDTH` at least 1, allocations that succeed and an input that fits the
address space, `args_parse` without `STRING` gives a configuration whose buffer starts
with the bytes of stdin, in order, and whose `string_len` is their number. -/
theorem args_parse_stdin_content (env : Env) (width : Nat) (ps : parse_state)
    (hw : 1 ≤ width) (hm : env.malloc_ok (min width 1024) = true)
    (hre : ∀ k, env.realloc_ok k = true) (hn : env.stdin.length ≤ 2 ^ 63) :
    ∃ buf : List Char,
      args_parse_stdin env width ps
          = .ok ⟨width, buf, env.stdin.length, true, ps.pad_type, ps.pad_char⟩ ∧
        buf.take env.stdin.length = env.stdin ∧ env.stdin.length ≤ buf.length := by
  have hc0 : (if width < 1024 then width else 1024) = min width 1024 := by
    by_cases h : width < 1024 <;> simp [h] <;> omega
  obtain ⟨st, k, hloop, h1, h2, h3, h4, h5, _, _, _⟩ :=
    drain_loop_ok env hre (min width 1024) (by omega) env.stdin
      ⟨(List.range (min width 1024)).map env.fresh, min width 1024, 0⟩ 0 []
      (by simp) (by simp) rfl (by simp) (by simp) (by intro j' h; omega) (by simpa using hn)
  simp only [List.length_nil, Nat.zero_add, List.nil_append] at h3 h4 h5
  refine ⟨st.string, ?_, by rw [← h3]; exact h4, by rw [h2]; exact h5⟩
  simp only [args_parse_stdin, hc0, malloc, hm, if_true, hloop, h3]

/-- C19. In the stdin loop the capacity starts at `min width 1024` and each growth
doubles it: for `width >= 1`, allocations that succeed and an input of `n` bytes that
fits the address space, the loop ends with capacity `min width 1024 * 2 ^ k` for the
least `k` that makes it at least `n`, after exactly `k` calls of `realloc`, and the
capacity is below `2 * max n (min width 1024)`. -/
theorem drain_capacity (env : Env) (width : Nat)
    (hw : 1 ≤ width) (hre : ∀ k, env.realloc_ok k = true)
    (hn : env.stdin.length ≤ 2 ^ 63) :
    (if width < 1024 then width else 1024) = min width 1024 ∧
      ∃ (st : drain_state) (k : Nat),
        drain_loop env env.stdin
            ⟨(List.range (min width 1024)).map env.fresh, min width 1024, 0⟩ = .ok st ∧
          st.string_size = min width 1024 * 2 ^ k ∧
          env.stdin.length ≤ min width 1024 * 2 ^ k ∧
          (∀ j, j < k → min width 1024 * 2 ^ j < env.stdin.length) ∧
          drain_reallocs env env.stdin
            ⟨(List.range (min width 1024)).map env.fresh, min width 1024, 0⟩ = k ∧
          st.string_size < 2 * max env.stdin.length (min width 1024) := by
  have hc0 : (if width < 1024 then width else 1024) = min width 1024 := by
    by_cases h : width < 1024 <;> simp [h] <;> omega
  obtain ⟨st, k, hloop, h1, _, _, _, h5, h6, _, h8⟩ :=
    drain_loop_ok env hre (min width 1024) (by omega) env.stdin
      ⟨(List.range (min width 1024)).map env.fresh, min width 1024, 0⟩ 0 []
      (by simp) (by simp) rfl (by simp) (by simp) (by intro j' h; omega) (by simpa using hn)
  simp only [List.length_nil, Nat.zero_add] at h5 h6
  refine ⟨hc0, st, k, hloop, h1, by rw [← h1]; exact h5, h6, by simpa using h8, ?_⟩
  rw [h1]
  cases k with
  | zero =>
    simp only [Nat.pow_zero, Nat.mul_one]
    have : min width 1024 ≤ max env.stdin.length (min width 1024) := Nat.le_max_right _ _
    omega
  | succ k =>
    have := h6 k (Nat.lt_succ_self k)
    have hmax : env.stdin.length ≤ max env.stdin.length (min width 1024) :=
      Nat.le_max_left _ _
    rw [Nat.pow_succ]
    have : min width 1024 * (2 ^ k * 2) = 2 * (min width 1024 * 2 ^ k) := by ring
    omega

theorem drain_capacity_witness :
    ∃ (st : drain_state) (k : Nat),
      drain_loop (env_of ['a', 'b', 'c', 'd', 'e', 'f', 'g'] ' ')
          (env_of ['a', 'b', 'c', 'd', 'e', 'f', 'g'] ' ').stdin
          ⟨(List.range (min 3 1024)).map (env_of ['a', 'b', 'c', 'd', 'e', 'f', 'g'] ' ').fresh,
            min 3 1024, 0⟩ = .ok st ∧
        st.string_size = min 3 1024 * 2 ^ k ∧
        (env_of ['a', 'b', 'c', 'd', 'e', 'f', 'g'] ' ').stdin.length ≤ min 3 1024 * 2 ^ k ∧
        (∀ j, j < k →
          min 3 1024 * 2 ^ j < (env_of ['a', 'b', 'c', 'd', 'e', 'f', 'g'] ' ').stdin.length) ∧
        drain_reallocs (env_of ['a', 'b', 'c', 'd', 'e', 'f', 'g'] ' ')
          (env_of ['a', 'b', 'c', 'd', 'e', 'f', 'g'] ' ').stdin
          ⟨(List.range (min 3 1024)).map (env_of ['a', 'b', 'c', 'd', 'e', 'f', 'g'] ' ').fresh,
            min 3 1024, 0⟩ = k ∧
        st.string_size
          < 2 * max (env_of ['a', 'b', 'c', 'd', 'e', 'f', 'g'] ' ').stdin.length (min 3 1024) :=
  (drain_capacity (env_of ['a', 'b', 'c', 'd', 'e', 'f', 'g'] ' ') 3 (by decide)
    (fun _ => rfl) (by simp [env_of])).2

/-- C17, at the failing input.  With `WIDTH` 0 the capacity is 0 and doubling leaves it
0: for the first byte read, `realloc` is asked for 0 bytes and, when it gives a buffer,
the byte is stored at index 0 of a buffer of capacity 0 (otherwise the run ends with
`EXIT_STATUS_MALLOC`). -/
theorem zero_width_write_outside (mo ro : Nat → Bool) (fr : Nat → Char) (c : Char)
    (rest : List Char) (ps : parse_state) :
    0 * 2 % SIZE_MODULUS = 0 ∧
      drain_step ⟨c :: rest, mo, ro, fr⟩ ⟨[], 0, 0⟩ c
        = (if ro 0 then .undefined else .exit EXIT_STATUS_MALLOC []) ∧
      args_parse_stdin ⟨c :: rest, mo, ro, fr⟩ 0 ps
        = (if mo 0 ∧ ro 0 then .undefined else .exit EXIT_STATUS_MALLOC []) := by
  have hstep : drain_step ⟨c :: rest, mo, ro, fr⟩ ⟨[], 0, 0⟩ c
      = (if ro 0 then .undefined else .exit EXIT_STATUS_MALLOC []) := by
    cases h : ro 0 <;> simp [drain_step, realloc, h, SIZE_MODULUS]
  refine ⟨by decide, hstep, ?_⟩
  cases hm : mo 0 <;> cases h : ro 0 <;>
    simp [args_parse_stdin, malloc, realloc, hm, h, drain_loop, drain_step, SIZE_MODULUS]

/-- C18, at the failing input, and the part that holds.  With `WIDTH` 0 and `hi` on
stdin, `args_parse` gives no configuration.  With `STRING` given, the configuration
holds that argument, its length, and `string_dynamic` false, and stdin plays no part. -/
theorem stdin_content_not_resolved (mo ro : Nat → Bool) (fr : Nat → Char) (env : Env)
    (ps : parse_state) (w s : List Char) :
    args_parse [['p', 'a', 'd'], ['0']] ⟨['h', 'i'], mo, ro, fr⟩
        = (if mo 0 ∧ ro 0 then .undefined else .exit EXIT_STATUS_MALLOC []) ∧
      args_parse_operands env ps [w, s]
        = (match args_parse_width w with
          | none => .exit EXIT_STATUS_ARG []
          | some width =>
            .ok ⟨width, s ++ [NUL], strlen (s ++ [NUL]), false, ps.pad_type,
              ps.pad_char⟩) := by
  constructor
  · have hp : args_parse [['p', 'a', 'd'], ['0']] ⟨['h', 'i'], mo, ro, fr⟩
        = args_parse_stdin ⟨['h', 'i'], mo, ro, fr⟩ 0 parse_state_default := by
      rfl
    rw [hp]
    cases h : mo 0 <;> cases h2 : ro 0 <;>
      simp [args_parse_stdin, malloc, realloc, h, h2, drain_loop, drain_step,
        SIZE_MODULUS]
  · rfl

/-- C16, at the failing input.  The first argument `4294967297` is a number outside
0-255, which `strtol` converts without error; the cast to `int` makes it 1, and `main`
returns 1 and not 0.  In-range and malformed arguments behave as the comment says. -/
theorem exitcode_cast_wraps :
    exitcode_main [['e', 'x', 'i', 't', 'c', 'o', 'd', 'e'],
        ['4', '2', '9', '4', '9', '6', '7', '2', '9', '7']] = 1 ∧
      strtol ['4', '2', '9', '4', '9', '6', '7', '2', '9', '7'] 10
        = ⟨4294967297, [], false⟩ ∧
      to_int 4294967297 = 1 ∧
      exitcode_main [['e', 'x', 'i', 't', 'c', 'o', 'd', 'e'], ['2', '5', '5']] = 255 ∧
      exitcode_main [['e', 'x', 'i', 't', 'c', 'o', 'd', 'e'], ['2', '5', '6']] = 0 ∧
      exitcode_main [['e', 'x', 'i', 't', 'c', 'o', 'd', 'e'], ['1', '2', 'x']] = 0 ∧
      exitcode_main [['e', 'x', 'i', 't', 'c', 'o', 'd', 'e']] = 0 := by
  refine ⟨by decide, by decide, by decide, by decide, by decide, by decide, by decide⟩

/-! ## The option loop at any point of the command line -/

/-- After passes that accept their options, the option loop goes on from the state
they leave, whatever fuel it has left. -/
theorem args_parse_options_first (k : Nat) :
    ∀ (st st1 : getopt_state) (ps ps1 : parse_state) (seen : List Char) (n : Nat),
      args_parse_first k st ps = some (st1, ps1, seen) → st.size < n →
        args_parse_options n st ps = args_parse_options (st1.size + 1) st1 ps1 := by
  induction k with
  | zero =>
    intro st st1 ps ps1 seen n h hn
    simp only [args_parse_first, Option.some.injEq, Prod.mk.injEq] at h
    obtain ⟨h1, h2, _⟩ := h
    subst h1 h2
    exact args_parse_options_fuel _ _ _ _ hn (Nat.lt_succ_self _)
  | succ k ih =>
    intro st st1 ps ps1 seen n h hn
    rw [args_parse_first] at h
    cases hg : getopt OPTIONS st with
    | done operands => simp [hg] at h
    | err st' => simp [hg] at h
    | opt c optarg st' =>
      simp only [hg] at h
      have hlt := getopt_size _ _ _ _ _ hg
      cases hs : args_parse_switch c optarg ps with
      | ok ps' =>
        simp only [hs, Option.map_eq_some'] at h
        obtain ⟨r, hr, hrr⟩ := h
        obtain ⟨r1, r2, r3⟩ := r
        simp only [Prod.mk.injEq] at hrr
        obtain ⟨e1, e2, _⟩ := hrr
        subst e1 e2
        cases n with
        | zero => omega
        | succ n =>
          rw [args_parse_options]
          simp only [hg, hs]
          exact ih st' r1 ps' r2 r3 n hr (by omega)
      | exit status out => simp [hs] at h
      | undefined => simp [hs] at h
      | unfinished => simp [hs] at h

/-- The `switch` never resets `pad_type_set`, and sets it for an alignment flag. -/
theorem args_parse_switch_set (c : Char) (optarg : List Char) (ps ps' : parse_state)
    (h : args_parse_switch c optarg ps = .ok ps') :
    (ps.pad_type_set = true → ps'.pad_type_set = true) ∧
      (c = 'c' ∨ c = 'l' ∨ c = 'r' → ps'.pad_type_set = true) := by
  unfold args_parse_switch at h
  repeat' split at h
  all_goals first
    | (cases h; refine ⟨fun hh => ?_, fun hh => ?_⟩ <;> simp_all)
    | cases h

/-- After passes that accept their options, one of which is an alignment flag,
`pad_type_set` is true. -/
theorem args_parse_first_set (k : Nat) :
    ∀ (st st1 : getopt_state) (ps ps1 : parse_state) (seen : List Char),
      args_parse_first k st ps = some (st1, ps1, seen) →
      (ps.pad_type_set = true ∨ ∃ g ∈ seen, g = 'c' ∨ g = 'l' ∨ g = 'r') →
        ps1.pad_type_set = true := by
  induction k with
  | zero =>
    intro st st1 ps ps1 seen h hset
    simp only [args_parse_first, Option.some.injEq, Prod.mk.injEq] at h
    obtain ⟨_, h2, h3⟩ := h
    subst h2 h3
    rcases hset with hset | ⟨g, hg, _⟩
    · exact hset
    · simp at hg
  | succ k ih =>
    intro st st1 ps ps1 seen h hset
    rw [args_parse_first] at h
    cases hg : getopt OPTIONS st with
    | done operands => simp [hg] at h
    | err st' => simp [hg] at h
    | opt c optarg st' =>
      simp only [hg] at h
      cases hs : args_parse_switch c optarg ps with
      | ok ps' =>
        simp only [hs, Option.map_eq_some'] at h
        obtain ⟨r, hr, hrr⟩ := h
        obtain ⟨r1, r2, r3⟩ := r
        simp only [Prod.mk.injEq] at hrr
        obtain ⟨e1, e2, e3⟩ := hrr
        subst e1 e2 e3
        obtain ⟨hkeep, hflag⟩ := args_parse_switch_set _ _ _ _ hs
        apply ih st' r1 ps' r2 r3 hr
        rcases hset with hset | ⟨g, hgm, hgf⟩
        · exact Or.inl (hkeep hset)
        · rcases List.mem_cons.mp hgm with hgc | hgr
          · exact Or.inl (hflag (hgc ▸ hgf))
          · exact Or.inr ⟨g, hgr, hgf⟩
      | exit status out => simp [hs] at h
      | undefined => simp [hs] at h
      | unfinished => simp [hs] at h

/-- When the pass after accepted ones ends the run in its `switch`, `args_parse` and
`main` end with that status and stdout. -/
theorem args_parse_exit_at (argv : List (List Char)) (env : Env) (k : Nat)
    (st st' : getopt_state) (ps : parse_state) (seen : List Char) (c : Char)
    (optarg : List Char) (status : Nat) (out : List Char)
    (hrun : args_parse_first k ⟨[], argv.tail⟩ parse_state_default = some (st, ps, seen))
    (hnext : getopt OPTIONS st = .opt c optarg st')
    (hsw : args_parse_switch c optarg ps = .exit status out) :
    args_parse argv env = .exit status out ∧ main argv env = .terminated status out := by
  have h1 : args_parse argv env = .exit status out := by
    unfold args_parse
    simp only []
    rw [args_parse_options_first k _ st _ ps seen _ hrun (Nat.lt_succ_self _),
      args_parse_options]
    simp only [hnext, hsw]
  exact ⟨h1, main_of_args_parse_exit _ _ _ _ h1⟩

/-- The option loop at an option without argument inside an element. -/
theorem args_parse_options_inside (k : Nat) (f : Char) (more : List Char)
    (rest : List (List Char)) (ps : parse_state)
    (hf : f = 'c' ∨ f = 'h' ∨ f = 'l' ∨ f = 'r') :
    args_parse_options (k + 1) ⟨f :: more, rest⟩ ps
      = match args_parse_switch f [] ps with
        | .ok ps' => args_parse_options k ⟨more, rest⟩ ps'
        | .exit status out => .exit status out
        | .undefined => .undefined
        | .unfinished => .unfinished := by
  rcases hf with h | h | h | h <;> subst h <;> rfl

/-- C7, amended.  In every argument list in which the option loop accepts the first `k`
options, one of them an alignment flag `g`, and then comes to an alignment flag `f`
(the same or another one, in an element of its own or inside an element), `args_parse`
ends the process with `EXIT_STATUS_ARG` and nothing on stdout when it parses `f`, and
gives no configuration; nothing is asked of what follows `f`.  So it is for `-g -f` and
for `-gf` after accepted options, whatever the rest of the element and the arguments
after it are. -/
theorem second_alignment_flag_rejected (argv : List (List Char)) (env : Env) (k : Nat)
    (st st' : getopt_state) (ps : parse_state) (seen : List Char) (g f : Char)
    (optarg : List Char)
    (hrun : args_parse_first k ⟨[], argv.tail⟩ parse_state_default = some (st, ps, seen))
    (hg : g ∈ seen) (hgf : g = 'c' ∨ g = 'l' ∨ g = 'r')
    (hnext : getopt OPTIONS st = .opt f optarg st') (hf : f = 'c' ∨ f = 'l' ∨ f = 'r') :
    (args_parse argv env = .exit EXIT_STATUS_ARG [] ∧
        main argv env = .terminated EXIT_STATUS_ARG []) ∧
      (∀ (prog : List Char) (pre rest : List (List Char)) (ps0 : parse_state)
          (more : List Char) (env' : Env), options_accepted pre ps0 →
        (args_parse (prog :: (pre ++ ['-', g] :: ('-' :: f :: more) :: rest)) env'
              = .exit EXIT_STATUS_ARG [] ∧
            main (prog :: (pre ++ ['-', g] :: ('-' :: f :: more) :: rest)) env'
              = .terminated EXIT_STATUS_ARG []) ∧
          (args_parse (prog :: (pre ++ ('-' :: g :: f :: more) :: rest)) env'
              = .exit EXIT_STATUS_ARG [] ∧
            main (prog :: (pre ++ ('-' :: g :: f :: more) :: rest)) env'
              = .terminated EXIT_STATUS_ARG [])) := by
  have hsw : ∀ (ps1 : parse_state) (oa : List Char), ps1.pad_type_set = true →
      args_parse_switch f oa ps1 = .exit EXIT_STATUS_ARG [] := by
    intro ps1 oa h1
    rcases hf with h | h | h <;> subst h <;> simp [args_parse_switch, h1]
  constructor
  · have hset := args_parse_first_set k _ st _ ps seen hrun (Or.inr ⟨g, hg, hgf⟩)
    exact args_parse_exit_at argv env k st st' ps seen f optarg _ _ hrun hnext
      (hsw ps optarg hset)
  · intro prog pre rest ps0 more env' hpre
    refine ⟨(second_flag_after_elements prog pre rest ps0 f more env' hpre hf).2 g hgf, ?_⟩
    have hg' : g = 'c' ∨ g = 'h' ∨ g = 'l' ∨ g = 'r' := by
      rcases hgf with h | h | h <;> simp [h]
    have hf' : f = 'c' ∨ f = 'h' ∨ f = 'l' ∨ f = 'r' := by
      rcases hf with h | h | h <;> simp [h]
    have h1 : args_parse (prog :: (pre ++ ('-' :: g :: f :: more) :: rest)) env'
        = .exit EXIT_STATUS_ARG [] := by
      rw [args_parse_after prog pre _ ps0 env' hpre,
        args_parse_options_flag _ g (f :: more) rest ps0 hg']
      by_cases hset : ps0.pad_type_set = true
      · have : args_parse_switch g [] ps0 = .exit EXIT_STATUS_ARG [] := by
          rcases hgf with h | h | h <;> subst h <;> simp [args_parse_switch, hset]
        rw [this]
      · have : ∃ ps1, args_parse_switch g [] ps0 = .ok ps1 ∧ ps1.pad_type_set = true := by
          rcases hgf with h | h | h <;> subst h <;> simp [args_parse_switch, hset]
        obtain ⟨ps1, hps1, hset1⟩ := this
        rw [hps1]
        have hsz : (getopt_state.mk [] (('-' :: g :: f :: more) :: rest)).size
            = ((getopt_state.mk [] rest).size + more.length + 3) + 1 := by
          simp [getopt_state.size]; omega
        simp only [hsz]
        rw [args_parse_options_inside _ f more rest ps1 hf', hsw ps1 [] hset1]
    exact ⟨h1, main_of_args_parse_exit _ _ _ _ h1⟩

theorem second_alignment_flag_rejected_witness :
    args_parse_first 1 ⟨[], [['-', 'c', 'l'], ['8'], ['h', 'i']]⟩ parse_state_default
        = some (⟨['l'], [['8'], ['h', 'i']]⟩, ⟨pad_type.PAD_TYPE_CENTER, true, ' '⟩, ['c']) ∧
      main [['p', 'a', 'd'], ['-', 'c', 'l'], ['8'], ['h', 'i']] (env_of [] ' ')
        = .terminated EXIT_STATUS_ARG [] :=
  ⟨by rfl,
    (second_alignment_flag_rejected [['p', 'a', 'd'], ['-', 'c', 'l'], ['8'], ['h', 'i']]
      (env_of [] ' ') 1 ⟨['l'], [['8'], ['h', 'i']]⟩ ⟨[], [['8'], ['h', 'i']]⟩
      ⟨pad_type.PAD_TYPE_CENTER, true, ' '⟩ ['c'] 'c' 'l' [] (by rfl) (by decide) (by decide)
      (by rfl) (by decide)).1.2⟩

/-- C9, amended.  In every argument list in which the option loop accepts the first `k`
options and then comes to `-h` (in an element of its own or inside an element), the
program writes the help text to stdout and exits with status 0; nothing is asked of what
follows `-h`, so no flag, `-p` operand or `WIDTH` after it takes effect.  So it is for an
element that starts with `-h` after accepted options, and for `-gh` with an alignment
flag `g`, whatever the rest of the element and the arguments after it are. -/
theorem help_preempts_what_follows (argv : List (List Char)) (env : Env) (k : Nat)
    (st st' : getopt_state) (ps : parse_state) (seen : List Char) (optarg : List Char)
    (hrun : args_parse_first k ⟨[], argv.tail⟩ parse_state_default = some (st, ps, seen))
    (hnext : getopt OPTIONS st = .opt 'h' optarg st') :
    (args_parse argv env = .exit EXIT_SUCCESS help_text ∧
        main argv env = .terminated EXIT_SUCCESS help_text) ∧
      (∀ (prog : List Char) (pre rest : List (List Char)) (ps0 : parse_state)
          (more : List Char) (env' : Env), options_accepted pre ps0 →
        args_parse (prog :: (pre ++ ('-' :: 'h' :: more) :: rest)) env'
            = .exit EXIT_SUCCESS help_text ∧
          main (prog :: (pre ++ ('-' :: 'h' :: more) :: rest)) env'
            = .terminated EXIT_SUCCESS help_text) ∧
      (∀ (prog : List Char) (rest : List (List Char)) (g : Char) (more : List Char)
          (env' : Env), g = 'c' ∨ g = 'l' ∨ g = 'r' →
        args_parse (prog :: ('-' :: g :: 'h' :: more) :: rest) env'
            = .exit EXIT_SUCCESS help_text ∧
          main (prog :: ('-' :: g :: 'h' :: more) :: rest) env'
            = .terminated EXIT_SUCCESS help_text) := by
  refine ⟨?_, ?_, ?_⟩
  · exact args_parse_exit_at argv env k st st' ps seen 'h' optarg _ _ hrun hnext rfl
  · intro prog pre rest ps0 more env' hpre
    exact help_after_elements prog pre rest ps0 more env' hpre
  · intro prog rest g more env' hgf
    have hfirst : ∃ ps1, args_parse_first 1
        ⟨[], (prog :: ('-' :: g :: 'h' :: more) :: rest).tail⟩ parse_state_default
          = some (⟨'h' :: more, rest⟩, ps1, [g]) := by
      rcases hgf with h | h | h <;> subst h <;> exact ⟨_, rfl⟩
    obtain ⟨ps1, hps1⟩ := hfirst
    exact args_parse_exit_at _ env' 1 ⟨'h' :: more, rest⟩ ⟨more, rest⟩ ps1 [g] 'h' [] _ _
      hps1 rfl rfl

theorem help_preempts_what_follows_witness :
    args_parse_first 1 ⟨[], [['-', 'c', 'h'], ['-', 'l'], ['a', 'b', 'c']]⟩ parse_state_default
        = some (⟨['h'], [['-', 'l'], ['a', 'b', 'c']]⟩,
            ⟨pad_type.PAD_TYPE_CENTER, true, ' '⟩, ['c']) ∧
      main [['p', 'a', 'd'], ['-', 'c', 'h'], ['-', 'l'], ['a', 'b', 'c']] (env_of [] ' ')
        = .terminated EXIT_SUCCESS help_text :=
  ⟨by rfl,
    (help_preempts_what_follows
      [['p', 'a', 'd'], ['-', 'c', 'h'], ['-', 'l'], ['a', 'b', 'c']] (env_of [] ' ') 1
      ⟨['h'], [['-', 'l'], ['a', 'b', 'c']]⟩ ⟨[], [['-', 'l'], ['a', 'b', 'c']]⟩
      ⟨pad_type.PAD_TYPE_CENTER, true, ' '⟩ ['c'] [] (by rfl) (by rfl)).1.2⟩

end Pad
